import Mathlib

/-!
Verification development for the late-sheet batch script.

The script scans a spreadsheet, selects data rows whose "Email sent" cell
is blank, validates the name against an optional data-validation rule,
sends one email per valid row, and stamps the row with a timestamp
(or with the sentinel string "invalid name" for rejected names).

The embedding below models the spreadsheet grid as a list of rows of
JS-like cell values, the mail/write side effects as an event trace, and
per-row runtime failures (a throwing send or cell write, caught by the
per-row try/catch) as a failure oracle indexed by row number.
-/

namespace LateSheet

/-- A spreadsheet cell value as returned by the grid read: a string, a
date object (abstracted by an integer timestamp), or a number. -/
inductive Value where
  | str (s : String)
  | vdate (t : Nat)
  | num (n : Int)
  deriving DecidableEq

/-- JS truthiness of a cell value: the empty string, and the number 0,
are falsy; date objects are always truthy. -/
def Value.truthy : Value → Bool
  | .str s => s != ""
  | .vdate _ => true
  | .num n => n != 0

/-- JS toString of a cell value.  A date object stringifies to a
non-blank representation (modelled as a tagged decimal rendering). -/
def Value.toStr : Value → String
  | .str s => s
  | .vdate t => "Date(" ++ Nat.repr t ++ ")"
  | .num n => Int.repr n

/-- Model of the JS String.prototype.trim used by the script: drop
whitespace from both ends of the character list. -/
def jsTrim (s : String) : String :=
  String.mk (((s.data.dropWhile Char.isWhitespace).reverse.dropWhile Char.isWhitespace).reverse)

/-- The blankness test the script applies to the emailSent cell of each
data row (line 249 of the source):
  !emailSent || emailSent.toString().trim() === two single quotes. -/
def isBlankCell (v : Value) : Bool :=
  !v.truthy || jsTrim v.toStr == ""

/-- The declared logical-key to header-label table (the columns object). -/
def columns : List (String × String) :=
  [("name", "Name"), ("date", "Date"), ("violation", "Violation"),
   ("howLate", "How Late?"), ("notes", "Notes"), ("emailSent", "Email sent"),
   ("coachNotified", "Coach notified")]

/-- Index of the last cell of the header row equal to the given label
string (the forEach over the header row overwrites earlier matches, so
the final stored index is the last occurrence). -/
def lastIdxAux (label : String) : List Value → Option Nat
  | [] => none
  | c :: rest =>
    match lastIdxAux label rest with
    | some j => some (j + 1)
    | none => if c == Value.str label then some 0 else none

/-- Resolved 0-based column indices for the seven declared logical keys. -/
structure ColumnIndices where
  name : Nat
  date : Nat
  violation : Nat
  howLate : Nat
  notes : Nat
  emailSent : Nat
  coachNotified : Nat
  deriving DecidableEq

/-- Header resolution: map every declared label to its (last) header
index; fail if any declared label has no exactly-equal header cell. -/
def resolveColumns (headerRow : List Value) : Option ColumnIndices :=
  (lastIdxAux "Name" headerRow).bind fun n =>
  (lastIdxAux "Date" headerRow).bind fun d =>
  (lastIdxAux "Violation" headerRow).bind fun v =>
  (lastIdxAux "How Late?" headerRow).bind fun hl =>
  (lastIdxAux "Notes" headerRow).bind fun no =>
  (lastIdxAux "Email sent" headerRow).bind fun e =>
  (lastIdxAux "Coach notified" headerRow).map fun c => ⟨n, d, v, hl, no, e, c⟩

/-- A data-validation rule attached to the name cell, as read through
getCriteriaType and getCriteriaValues.  For VALUE_IN_LIST the payload is
criteriaValues[0] when that element is present (a possibly empty array of
allowed values); for VALUE_IN_RANGE it is the toString of
criteriaValues[0] (a range reference) when present. -/
inductive DataValidation where
  | valueInList (vals : Option (List Value))
  | valueInRange (ref : Option String)
  | other
  deriving DecidableEq

/-- External collaborators: resolving a range reference to its flat list
of values (none models a throwing getRange or read), parsing a non-date
value as a date (none models NaN), and locale date formatting. -/
structure Env where
  ranges : String → Option (List Value)
  parseDate : Value → Option Nat
  locale : Nat → String

/-- The isValidName function (source lines 161 to 222): blank names are
invalid; no rule means valid; a list rule with a present payload checks
trimmed case-sensitive membership; a range rule resolves the reference
and checks trimmed membership, treating a failed resolution as valid;
every other situation is treated as valid. -/
def isValidName (validation : Option DataValidation) (nameValue : Value)
    (ranges : String → Option (List Value)) : Bool :=
  if !nameValue.truthy || jsTrim nameValue.toStr == "" then false
  else
    match validation with
    | none => true
    | some (.valueInList (some allowedValues)) =>
        allowedValues.any fun val => jsTrim val.toStr == jsTrim nameValue.toStr
    | some (.valueInList none) => true
    | some (.valueInRange (some rangeA1)) =>
        match ranges rangeA1 with
        | some rangeValues =>
            rangeValues.any fun val => jsTrim val.toStr == jsTrim nameValue.toStr
        | none => true
    | some (.valueInRange none) => true
    | some .other => true

/-- The reference safe-default admissibility policy, written from the
specification text: blank identity inadmissible; no rule admissible;
list rule with a non-empty literal set checks trimmed membership while
an empty or absent set is admissible; range rule checks the resolved
range, failed resolution admissible; unknown kinds admissible. -/
def nameAdmissibleSpec (rule : Option DataValidation) (identity : String)
    (ranges : String → Option (List Value)) : Bool :=
  if jsTrim identity == "" then false
  else
    match rule with
    | none => true
    | some (.valueInList (some vals)) =>
        if vals.isEmpty then true
        else vals.any fun val => jsTrim val.toStr == jsTrim identity
    | some (.valueInList none) => true
    | some (.valueInRange (some ref)) =>
        match ranges ref with
        | some vs => vs.any fun val => jsTrim val.toStr == jsTrim identity
        | none => true
    | some (.valueInRange none) => true
    | some .other => true

/-- The admissibility policy the code actually implements, for string
identities: as the reference policy, except that a present but empty
literal set admits nothing. -/
def nameAdmissibleAmended (rule : Option DataValidation) (identity : String)
    (ranges : String → Option (List Value)) : Bool :=
  if jsTrim identity == "" then false
  else
    match rule with
    | none => true
    | some (.valueInList (some vals)) =>
        vals.any fun val => jsTrim val.toStr == jsTrim identity
    | some (.valueInList none) => true
    | some (.valueInRange (some ref)) =>
        match ranges ref with
        | some vs => vs.any fun val => jsTrim val.toStr == jsTrim identity
        | none => true
    | some (.valueInRange none) => true
    | some .other => true

/-- A sheet: the full grid snapshot (row 0 is the header) and the
per-cell data validation accessor (1-based row and column), used once to
read the rule on the first data cell of the name column. -/
structure Sheet where
  values : List (List Value)
  validation : Nat → Nat → Option DataValidation

/-- Result of readColumnData. -/
structure ColumnData where
  columnIndices : ColumnIndices
  values : List (List Value)
  nameValidation : Option DataValidation
  deriving DecidableEq

/-- Cell access inside one row; the grid returned by getValues is
rectangular, so a missing trailing cell reads as the empty string. -/
def cellAt (row : List Value) (c : Nat) : Value :=
  row.getD c (Value.str "")

/-- readColumnData (source lines 93 to 152): require at least one data
row, resolve the header labels, and read the validation rule of the
cell at row 2 in the name column. -/
def readColumnData (sheet : Sheet) : Option ColumnData :=
  if sheet.values.length < 2 then none
  else
    match resolveColumns (sheet.values.headD []) with
    | none => none
    | some ci => some ⟨ci, sheet.values, sheet.validation 2 (ci.name + 1)⟩

/-- One parsed data row: the 1-based physical row number and the cell
value of each declared column. -/
structure RowData where
  rowNumber : Nat
  name : Value
  date : Value
  violation : Value
  howLate : Value
  notes : Value
  emailSent : Value
  coachNotified : Value
  deriving DecidableEq

/-- Build the RowData for the row at 0-based grid index i. -/
def extractRow (ci : ColumnIndices) (i : Nat) (row : List Value) : RowData :=
  { rowNumber := i + 1
    name := cellAt row ci.name
    date := cellAt row ci.date
    violation := cellAt row ci.violation
    howLate := cellAt row ci.howLate
    notes := cellAt row ci.notes
    emailSent := cellAt row ci.emailSent
    coachNotified := cellAt row ci.coachNotified }

/-- The selection loop (source lines 243 to 265): scan the rows starting
at grid index i, keeping rows whose emailSent cell is blank. -/
def selectRows (ci : ColumnIndices) : Nat → List (List Value) → List RowData
  | _, [] => []
  | i, row :: rest =>
    if isBlankCell (cellAt row ci.emailSent) then
      extractRow ci i row :: selectRows ci (i + 1) rest
    else
      selectRows ci (i + 1) rest

/-- The unprocessed rows of a grid: data rows (header excluded) with a
blank emailSent cell, in physical order. -/
def unprocessedRows (ci : ColumnIndices) (values : List (List Value)) : List RowData :=
  selectRows ci 1 (values.drop 1)

/-- A selector written from the specification text: the ordered sequence
of RowRecord for the data rows (header excluded) whose emailSent cell
satisfies the eligibility predicate. -/
def selectRowsSpec (pred : Value → Bool) (ci : ColumnIndices)
    (values : List (List Value)) : List RowData :=
  (values.enum.drop 1).filterMap fun p =>
    if pred (cellAt p.2 ci.emailSent) then some (extractRow ci p.1 p.2) else none

/-- The eligibility predicate as the specification words it: the cell is
empty or whitespace-only. -/
def specBlankCell (v : Value) : Bool :=
  jsTrim v.toStr == ""

/-- The eligibility predicate the code implements: the cell is falsy
(empty string or the number 0) or its string form is whitespace-only. -/
def blankOrFalsy (v : Value) : Bool :=
  !v.truthy || jsTrim v.toStr == ""

/-- The name shown in the email, with the fallback used when the name
value is falsy. -/
def emailName (data : RowData) : String :=
  if data.name.truthy then data.name.toStr else "Member"

/-- The synthesized recipient address. -/
def emailAddress (data : RowData) : String :=
  emailName data ++ "@directactioneverywhere.com"

/-- The fixed subject line. -/
def emailSubject : String :=
  "You\x27ve been added to the late sheet."

/-- formatDate (source lines 301 to 306): falsy input gives the empty
string; a date object is locale formatted; any other value is parsed as
a date and locale formatted, or stringified when parsing fails. -/
def formatDate (env : Env) (dateValue : Value) : String :=
  if !dateValue.truthy then ""
  else
    match dateValue with
    | .vdate t => env.locale t
    | v =>
      match env.parseDate v with
      | some t => env.locale t
      | none => v.toStr

/-- The four conditionally appended detail lines of the email body, in
source order; each is appended only when the field value is truthy. -/
def emailOptionalLines (env : Env) (data : RowData) : List String :=
  (if data.date.truthy then ["Date: " ++ formatDate env data.date ++ "\n"] else []) ++
  (if data.violation.truthy then ["Violation: " ++ data.violation.toStr ++ "\n"] else []) ++
  (if data.howLate.truthy then ["How Late: " ++ data.howLate.toStr ++ "\n"] else []) ++
  (if data.notes.truthy then ["Notes: " ++ data.notes.toStr ++ "\n"] else [])

/-- The full email body (source lines 320 to 337); the chain of
conditional string appends is regrouped as the join of the optional
lines between the fixed greeting and signature. -/
def buildEmailBody (env : Env) (data : RowData) : String :=
  "Hello " ++ emailName data ++ ",\n\n" ++
  "You\x27ve been added to the late sheet with the following details:\n\n" ++
  String.join (emailOptionalLines env data) ++
  "\nBest regards,\nLate Sheet System"

/-- An observable side effect of a run: an email dispatch or a cell
write, tagged with the 1-based row number being processed. -/
inductive Event where
  | send (rowNumber : Nat) (toAddr : String) (subject : String) (body : String)
  | write (rowNumber : Nat) (col : Nat) (value : Value)
  deriving DecidableEq

/-- The row number an event belongs to. -/
def eventRow : Event → Nat
  | .send r _ _ _ => r
  | .write r _ _ => r

/-- Whether an event is an email dispatch. -/
def isSendEvent : Event → Bool
  | .send _ _ _ _ => true
  | .write _ _ _ => false

/-- Whether an event is a cell write. -/
def isWriteEvent : Event → Bool
  | .send _ _ _ _ => false
  | .write _ _ _ => true

/-- The events belonging to one row. -/
def eventsFor (r : Nat) (es : List Event) : List Event :=
  es.filter fun e => eventRow e == r

/-- Number of email dispatches for one row. -/
def sendsFor (r : Nat) (es : List Event) : Nat :=
  ((eventsFor r es).filter isSendEvent).length

/-- Number of cell writes for one row. -/
def writesFor (r : Nat) (es : List Event) : Nat :=
  ((eventsFor r es).filter isWriteEvent).length

/-- Per-row runtime failures: whether the email send, and whether the
emailSent cell write, throw for a given 1-based row number.  A throw is
caught by the per-row try/catch and produces no effect. -/
structure Oracle where
  sendFails : Nat → Bool
  writeFails : Nat → Bool

/-- The failure-free oracle. -/
def allOk : Oracle :=
  ⟨fun _ => false, fun _ => false⟩

/-- Write a cell of the grid, 1-based row and column (getRange(row, col)
followed by setValue). -/
def setCell (g : List (List Value)) (rowNumber col : Nat) (v : Value) :
    List (List Value) :=
  g.set (rowNumber - 1) ((g.getD (rowNumber - 1) []).set (col - 1) v)

/-- Processing of one unprocessed row (source lines 270 to 293): an
invalid name gets the sentinel written; a valid name gets one email sent
and then the current timestamp written; a throwing step is caught,
leaving the remaining steps of this row undone. -/
def processOneRow (ci : ColumnIndices) (rule : Option DataValidation) (env : Env)
    (o : Oracle) (ts : Nat) (g : List (List Value)) (rd : RowData) :
    List (List Value) × List Event :=
  if !isValidName rule rd.name env.ranges then
    if o.writeFails rd.rowNumber then (g, [])
    else
      (setCell g rd.rowNumber (ci.emailSent + 1) (Value.str "invalid name"),
       [Event.write rd.rowNumber (ci.emailSent + 1) (Value.str "invalid name")])
  else if o.sendFails rd.rowNumber then (g, [])
  else if o.writeFails rd.rowNumber then
    (g, [Event.send rd.rowNumber (emailAddress rd) emailSubject (buildEmailBody env rd)])
  else
    (setCell g rd.rowNumber (ci.emailSent + 1) (Value.vdate ts),
     [Event.send rd.rowNumber (emailAddress rd) emailSubject (buildEmailBody env rd),
      Event.write rd.rowNumber (ci.emailSent + 1) (Value.vdate ts)])

/-- The events produced while processing one row; they do not depend on
the state of the live grid. -/
def rowEvents (ci : ColumnIndices) (rule : Option DataValidation) (env : Env)
    (o : Oracle) (ts : Nat) (rd : RowData) : List Event :=
  (processOneRow ci rule env o ts [] rd).2

/-- The forEach over the unprocessed rows, threading the live grid and
collecting events in order. -/
def processRows (ci : ColumnIndices) (rule : Option DataValidation) (env : Env)
    (o : Oracle) (ts : Nat) :
    List RowData → List (List Value) → List (List Value) × List Event
  | [], g => (g, [])
  | rd :: rest, g =>
    let step := processOneRow ci rule env o ts g rd
    let next := processRows ci rule env o ts rest step.1
    (next.1, step.2 ++ next.2)

/-- The final grid and the event trace of one processSheet run. -/
structure RunResult where
  grid : List (List Value)
  events : List Event
  deriving DecidableEq

/-- processSheet (source lines 229 to 294): read the column data, abort
with no effect when that fails, otherwise select the unprocessed rows
from the snapshot and process each in order. -/
def processSheet (sheet : Sheet) (env : Env) (o : Oracle) (ts : Nat) : RunResult :=
  match readColumnData sheet with
  | none => ⟨sheet.values, []⟩
  | some cd =>
    let res := processRows cd.columnIndices cd.nameValidation env o ts
      (unprocessedRows cd.columnIndices cd.values) cd.values
    ⟨res.1, res.2⟩

/-- A spreadsheet: its sheets by name, and the result of reading its
last-modification time through the Drive file (none models a throwing
lookup). -/
structure Spreadsheet where
  sheets : String → Option Sheet
  lastModifiedResult : Option Int

/-- The trailing recency window in milliseconds. -/
def recencyWindowMs : Int := 10 * 60 * 1000

/-- wasSheetModifiedRecently (source lines 18 to 37): true when the
last-modification time is later than ten minutes before now; a failure
to obtain the time yields false. -/
def wasSheetModifiedRecently (ss : Spreadsheet) (now : Int) : Bool :=
  match ss.lastModifiedResult with
  | none => false
  | some lastModified => decide (lastModified > now - recencyWindowMs)

/-- processLateSheet (source lines 65 to 78): refuse to run while the
current year is 2025, look up the sheet named after the current year,
and process it. -/
def processLateSheet (ss : Spreadsheet) (currentYear : String) (env : Env)
    (o : Oracle) (ts : Nat) : List Event :=
  if currentYear == "2025" then []
  else
    match ss.sheets currentYear with
    | none => []
    | some sheet => (processSheet sheet env o ts).events

/-- The unconditional entry point processLateSheetNow (source lines 57
to 63). -/
def processLateSheetNow (ss : Option Spreadsheet) (currentYear : String)
    (env : Env) (o : Oracle) (ts : Nat) : List Event :=
  match ss with
  | none => []
  | some s => processLateSheet s currentYear env o ts

/-- The guarded entry point processLateSheetIfNotModifiedRecently
(source lines 42 to 55). -/
def processLateSheetIfNotModifiedRecently (ss : Option Spreadsheet) (now : Int)
    (currentYear : String) (env : Env) (o : Oracle) (ts : Nat) : List Event :=
  match ss with
  | none => []
  | some s =>
    if wasSheetModifiedRecently s now then []
    else processLateSheet s currentYear env o ts

/-- A sequence of processSheet runs on the same sheet with no external
edits in between: each run starts from the grid the previous run left,
with the oracle and timestamp of that run. -/
def runSeq (env : Env) : Sheet → List (Oracle × Nat) → Sheet × List Event
  | s, [] => (s, [])
  | s, p :: rest =>
    let res := processSheet s env p.1 p.2
    let next := runSeq env { s with values := res.grid } rest
    (next.1, res.events ++ next.2)

/-- A rectangular grid: every row has the width of the header row, as
getValues guarantees. -/
def rectangular (values : List (List Value)) : Bool :=
  values.all fun r => r.length == (values.headD []).length

/-- Whether processing a given row hits a caught failure: a failing
write on the invalid branch, or a failing send or failing timestamp
write on the valid branch. -/
def rowFails (rule : Option DataValidation) (env : Env) (o : Oracle)
    (rd : RowData) : Bool :=
  if isValidName rule rd.name env.ranges then
    o.sendFails rd.rowNumber || o.writeFails rd.rowNumber
  else
    o.writeFails rd.rowNumber

/-- Concrete seven-column header in declared order. -/
def header7 : List Value :=
  [Value.str "Name", Value.str "Date", Value.str "Violation",
   Value.str "How Late?", Value.str "Notes", Value.str "Email sent",
   Value.str "Coach notified"]

/-- The column indices header7 resolves to. -/
def ci7 : ColumnIndices := ⟨0, 1, 2, 3, 4, 5, 6⟩

/-- A trivial environment for concrete computations. -/
def env0 : Env :=
  ⟨fun _ => none, fun _ => none, fun _ => ""⟩

/-- A concrete sheet with one unprocessed data row for Alice. -/
def sheet0 : Sheet :=
  ⟨[header7,
    [Value.str "Alice", Value.str "1/2", Value.str "Late", Value.str "5 min",
     Value.str "", Value.str "", Value.str ""]],
   fun _ _ => none⟩

/-- An oracle whose cell writes all throw while sends succeed. -/
def writeThrows : Oracle :=
  ⟨fun _ => false, fun _ => true⟩

/-- An oracle whose cell write throws exactly for physical row 2. -/
def failRow2 : Oracle :=
  ⟨fun _ => false, fun n => n == 2⟩

/-- The RowData the single data row of sheet0 parses to. -/
def rd0 : RowData :=
  ⟨2, Value.str "Alice", Value.str "1/2", Value.str "Late", Value.str "5 min",
   Value.str "", Value.str "", Value.str ""⟩

/-- The ColumnData sheet0 resolves to. -/
def cd0 : ColumnData :=
  ⟨ci7, sheet0.values, none⟩

/-- A grid whose single data row carries the number 0 in the emailSent
column. -/
def vals5 : List (List Value) :=
  [header7,
   [Value.str "Carol", Value.str "", Value.str "", Value.str "", Value.str "",
    Value.num 0, Value.str ""]]

/-- A row whose violation cell holds a whitespace-only string. -/
def rd9 : RowData :=
  ⟨2, Value.str "Bob", Value.str "", Value.str " ", Value.str "", Value.str "",
   Value.str "", Value.str ""⟩

/-- A sheet whose header lacks most declared labels. -/
def sheetMissing : Sheet :=
  ⟨[[Value.str "Name"], [Value.str "x"]], fun _ _ => none⟩

/-- A spreadsheet whose backing file reports a recent modification. -/
def ssRecent : Spreadsheet :=
  ⟨fun _ => none, some 100000⟩

/-- A spreadsheet whose modification-time lookup throws. -/
def ssNoTime : Spreadsheet :=
  ⟨fun _ => none, none⟩

/-!  ## Helper lemmas: lists and strings  -/

theorem getD_set_self {α : Type} (l : List α) (i : Nat) (v d : α)
    (h : i < l.length) : (l.set i v).getD i d = v := by
  induction l generalizing i with
  | nil => simp at h
  | cons x xs ih =>
    cases i with
    | zero => rfl
    | succ j => simpa using ih j (by simpa using h)

theorem getD_set_ne {α : Type} (l : List α) (i j : Nat) (v d : α)
    (h : i ≠ j) : (l.set i v).getD j d = l.getD j d := by
  induction l generalizing i j with
  | nil => rfl
  | cons x xs ih =>
    cases i with
    | zero =>
      cases j with
      | zero => exact absurd rfl h
      | succ j2 => rfl
    | succ i2 =>
      cases j with
      | zero => rfl
      | succ j2 => simpa using ih i2 j2 (by omega)

theorem getD_drop {α : Type} (l : List α) (n j : Nat) (d : α) :
    (l.drop n).getD j d = l.getD (n + j) d := by
  induction l generalizing n with
  | nil => simp
  | cons x xs ih =>
    cases n with
    | zero => simp
    | succ m =>
      have : m + 1 + j = (m + j) + 1 := by omega
      simp [List.drop_succ_cons, ih m, this]

theorem getD_mem {α : Type} (l : List α) (i : Nat) (d : α)
    (h : i < l.length) : l.getD i d ∈ l := by
  induction l generalizing i with
  | nil => simp at h
  | cons x xs ih =>
    cases i with
    | zero => simp
    | succ j =>
      have := ih j (by simpa using h)
      simp only [List.getD, List.get?_eq_getElem?] at this ⊢
      simp [this]

theorem dropWhile_snoc_ne_nil (p : Char → Bool) (xs : List Char) (c : Char)
    (h : p c = false) : (xs ++ [c]).dropWhile p ≠ [] := by
  induction xs with
  | nil => simp [List.dropWhile_cons, h]
  | cons x rest ih =>
    by_cases hx : p x = true
    · simpa [List.dropWhile_cons, hx] using ih
    · simp [List.dropWhile_cons, hx]

theorem jsTrim_ne_empty_of_head (s : String) (c : Char)
    (hc : s.data.head? = some c) (hw : c.isWhitespace = false) :
    (jsTrim s == "") = false := by
  cases hd : s.data with
  | nil => rw [hd] at hc; simp at hc
  | cons x xs =>
    rw [hd] at hc
    simp only [List.head?_cons, Option.some.injEq] at hc
    subst hc
    have h1 : (x :: xs).dropWhile Char.isWhitespace = x :: xs := by
      simp [List.dropWhile_cons, hw]
    have h2 : ((x :: xs).dropWhile Char.isWhitespace).reverse.dropWhile Char.isWhitespace ≠ [] := by
      rw [h1, List.reverse_cons]
      exact dropWhile_snoc_ne_nil Char.isWhitespace xs.reverse x hw
    have h3 : jsTrim s ≠ "" := by
      simp only [jsTrim, hd]
      intro he
      have : (((x :: xs).dropWhile Char.isWhitespace).reverse.dropWhile Char.isWhitespace).reverse = [] := by
        have : ("" : String) = String.mk [] := rfl
        rw [this] at he
        exact congrArg String.data he
      rw [List.reverse_eq_nil_iff] at this
      exact h2 this
    exact beq_eq_false_iff_ne.mpr h3

theorem isBlankCell_vdate (t : Nat) : isBlankCell (Value.vdate t) = false := by
  have hc : (Value.vdate t).toStr.data.head? = some 'D' := by
    show (("Date(" ++ Nat.repr t) ++ ")").data.head? = some 'D'
    rw [String.data_append, String.data_append]
    rfl
  have := jsTrim_ne_empty_of_head (Value.vdate t).toStr 'D' hc (by decide)
  simp [isBlankCell, Value.truthy, this]

theorem isBlankCell_sentinel : isBlankCell (Value.str "invalid name") = false := by
  decide

theorem append_ne_of_head_ne (p q a b : String) (c d : Char)
    (hp : p.data.head? = some c) (hq : q.data.head? = some d) (h : c ≠ d) :
    p ++ a ≠ q ++ b := by
  intro he
  have h2 : (p ++ a).data = (q ++ b).data := congrArg String.data he
  rw [String.data_append, String.data_append] at h2
  cases hpd : p.data with
  | nil => rw [hpd] at hp; simp at hp
  | cons x xs =>
    cases hqd : q.data with
    | nil => rw [hqd] at hq; simp at hq
    | cons y ys =>
      rw [hpd] at hp
      rw [hqd] at hq
      simp only [List.head?_cons, Option.some.injEq] at hp hq
      rw [hpd, hqd] at h2
      simp only [List.cons_append, List.cons.injEq] at h2
      exact h (hp ▸ hq ▸ h2.1)

theorem lineD_ne_lineV (a b : String) :
    "Date: " ++ a ++ "\n" ≠ "Violation: " ++ b ++ "\n" := by
  rw [String.append_assoc, String.append_assoc]
  exact append_ne_of_head_ne _ _ _ _ 'D' 'V' rfl rfl (by decide)

theorem lineD_ne_lineH (a b : String) :
    "Date: " ++ a ++ "\n" ≠ "How Late: " ++ b ++ "\n" := by
  rw [String.append_assoc, String.append_assoc]
  exact append_ne_of_head_ne _ _ _ _ 'D' 'H' rfl rfl (by decide)

theorem lineD_ne_lineN (a b : String) :
    "Date: " ++ a ++ "\n" ≠ "Notes: " ++ b ++ "\n" := by
  rw [String.append_assoc, String.append_assoc]
  exact append_ne_of_head_ne _ _ _ _ 'D' 'N' rfl rfl (by decide)

theorem lineV_ne_lineH (a b : String) :
    "Violation: " ++ a ++ "\n" ≠ "How Late: " ++ b ++ "\n" := by
  rw [String.append_assoc, String.append_assoc]
  exact append_ne_of_head_ne _ _ _ _ 'V' 'H' rfl rfl (by decide)

theorem lineV_ne_lineN (a b : String) :
    "Violation: " ++ a ++ "\n" ≠ "Notes: " ++ b ++ "\n" := by
  rw [String.append_assoc, String.append_assoc]
  exact append_ne_of_head_ne _ _ _ _ 'V' 'N' rfl rfl (by decide)

theorem lineH_ne_lineN (a b : String) :
    "How Late: " ++ a ++ "\n" ≠ "Notes: " ++ b ++ "\n" := by
  rw [String.append_assoc, String.append_assoc]
  exact append_ne_of_head_ne _ _ _ _ 'H' 'N' rfl rfl (by decide)

theorem lineV_ne_lineD (a b : String) :
    "Violation: " ++ a ++ "\n" ≠ "Date: " ++ b ++ "\n" :=
  Ne.symm (lineD_ne_lineV b a)

theorem lineH_ne_lineD (a b : String) :
    "How Late: " ++ a ++ "\n" ≠ "Date: " ++ b ++ "\n" :=
  Ne.symm (lineD_ne_lineH b a)

theorem lineN_ne_lineD (a b : String) :
    "Notes: " ++ a ++ "\n" ≠ "Date: " ++ b ++ "\n" :=
  Ne.symm (lineD_ne_lineN b a)

theorem lineH_ne_lineV (a b : String) :
    "How Late: " ++ a ++ "\n" ≠ "Violation: " ++ b ++ "\n" :=
  Ne.symm (lineV_ne_lineH b a)

theorem lineN_ne_lineV (a b : String) :
    "Notes: " ++ a ++ "\n" ≠ "Violation: " ++ b ++ "\n" :=
  Ne.symm (lineV_ne_lineN b a)

theorem lineN_ne_lineH (a b : String) :
    "Notes: " ++ a ++ "\n" ≠ "How Late: " ++ b ++ "\n" :=
  Ne.symm (lineH_ne_lineN b a)

/-!  ## Helper lemmas: header resolution  -/

theorem lastIdxAux_isSome (label : String) (l : List Value) :
    (lastIdxAux label l).isSome = true ↔ Value.str label ∈ l := by
  induction l with
  | nil => simp [lastIdxAux]
  | cons c rest ih =>
    simp only [lastIdxAux]
    cases h : lastIdxAux label rest with
    | some j =>
      rw [h] at ih
      simp only [Option.isSome_some, true_iff] at ih
      simp [List.mem_cons, ih]
    | none =>
      rw [h] at ih
      simp only [Option.isSome_none, Bool.false_eq_true, false_iff] at ih
      by_cases hc : c = Value.str label
      · simp [hc]
      · have hb : (c == Value.str label) = false := beq_eq_false_iff_ne.mpr hc
        simp [hb, List.mem_cons, ih]
        intro he
        exact hc he.symm

theorem lastIdxAux_lt (label : String) (l : List Value) (i : Nat)
    (h : lastIdxAux label l = some i) : i < l.length := by
  induction l generalizing i with
  | nil => simp [lastIdxAux] at h
  | cons c rest ih =>
    simp only [lastIdxAux] at h
    cases h2 : lastIdxAux label rest with
    | some j =>
      rw [h2] at h
      simp only [Option.some.injEq] at h
      have := ih j h2
      simp [← h]
      omega
    | none =>
      rw [h2] at h
      by_cases hc : (c == Value.str label) = true
      · simp [hc] at h
        simp [← h]
      · simp [hc] at h

theorem resolveColumns_isSome_eq (h : List Value) :
    (resolveColumns h).isSome =
      ((lastIdxAux "Name" h).isSome && (lastIdxAux "Date" h).isSome &&
       (lastIdxAux "Violation" h).isSome && (lastIdxAux "How Late?" h).isSome &&
       (lastIdxAux "Notes" h).isSome && (lastIdxAux "Email sent" h).isSome &&
       (lastIdxAux "Coach notified" h).isSome) := by
  simp only [resolveColumns]
  cases lastIdxAux "Name" h with
  | none => simp
  | some n =>
  simp only [Option.some_bind, Option.isSome_some, Bool.true_and]
  cases lastIdxAux "Date" h with
  | none => simp
  | some d =>
  simp only [Option.some_bind, Option.isSome_some, Bool.true_and]
  cases lastIdxAux "Violation" h with
  | none => simp
  | some v =>
  simp only [Option.some_bind, Option.isSome_some, Bool.true_and]
  cases lastIdxAux "How Late?" h with
  | none => simp
  | some hl =>
  simp only [Option.some_bind, Option.isSome_some, Bool.true_and]
  cases lastIdxAux "Notes" h with
  | none => simp
  | some no =>
  simp only [Option.some_bind, Option.isSome_some, Bool.true_and]
  cases lastIdxAux "Email sent" h with
  | none => simp
  | some e =>
  simp only [Option.some_bind, Option.isSome_some, Bool.true_and]
  cases lastIdxAux "Coach notified" h with
  | none => simp
  | some c =>
  simp

theorem resolveColumns_isSome_iff (h : List Value) :
    (resolveColumns h).isSome = true ↔ ∀ p ∈ columns, Value.str p.2 ∈ h := by
  rw [resolveColumns_isSome_eq]
  simp [columns, Bool.and_eq_true, lastIdxAux_isSome, and_assoc]

theorem resolveColumns_emailSent_lt (h : List Value) (ci : ColumnIndices)
    (hr : resolveColumns h = some ci) : ci.emailSent < h.length := by
  simp only [resolveColumns] at hr
  cases h1 : lastIdxAux "Name" h with
  | none => rw [h1] at hr; simp at hr
  | some n =>
  rw [h1] at hr
  simp only [Option.some_bind] at hr
  cases h2 : lastIdxAux "Date" h with
  | none => rw [h2] at hr; simp at hr
  | some d =>
  rw [h2] at hr
  simp only [Option.some_bind] at hr
  cases h3 : lastIdxAux "Violation" h with
  | none => rw [h3] at hr; simp at hr
  | some v =>
  rw [h3] at hr
  simp only [Option.some_bind] at hr
  cases h4 : lastIdxAux "How Late?" h with
  | none => rw [h4] at hr; simp at hr
  | some hl =>
  rw [h4] at hr
  simp only [Option.some_bind] at hr
  cases h5 : lastIdxAux "Notes" h with
  | none => rw [h5] at hr; simp at hr
  | some no =>
  rw [h5] at hr
  simp only [Option.some_bind] at hr
  cases h6 : lastIdxAux "Email sent" h with
  | none => rw [h6] at hr; simp at hr
  | some e =>
  rw [h6] at hr
  simp only [Option.some_bind] at hr
  cases h7 : lastIdxAux "Coach notified" h with
  | none => rw [h7] at hr; simp at hr
  | some c =>
  rw [h7] at hr
  simp only [Option.map_some', Option.some.injEq] at hr
  have he : ci.emailSent = e := by rw [← hr]
  rw [he]
  exact lastIdxAux_lt _ _ _ h6

theorem readColumnData_some (sheet : Sheet) (cd : ColumnData)
    (h : readColumnData sheet = some cd) :
    2 ≤ sheet.values.length ∧
    resolveColumns (sheet.values.headD []) = some cd.columnIndices ∧
    cd.values = sheet.values := by
  simp only [readColumnData] at h
  by_cases hl : sheet.values.length < 2
  · rw [if_pos hl] at h
    exact Option.noConfusion h
  · rw [if_neg hl] at h
    cases hr : resolveColumns (sheet.values.headD []) with
    | none => rw [hr] at h; exact Option.noConfusion h
    | some ci =>
      rw [hr] at h
      simp only [Option.some.injEq] at h
      refine ⟨by omega, ?_, ?_⟩
      · rw [← h]
      · rw [← h]

/-!  ## Helper lemmas: row selection  -/

@[simp] theorem extractRow_rowNumber (ci : ColumnIndices) (i : Nat) (row : List Value) :
    (extractRow ci i row).rowNumber = i + 1 := rfl

theorem selectRows_mem_bounds (ci : ColumnIndices) (rows : List (List Value))
    (i : Nat) (rd : RowData) (h : rd ∈ selectRows ci i rows) :
    i + 1 ≤ rd.rowNumber ∧ rd.rowNumber ≤ i + rows.length := by
  induction rows generalizing i with
  | nil => simp [selectRows] at h
  | cons row rest ih =>
    simp only [selectRows] at h
    by_cases hb : isBlankCell (cellAt row ci.emailSent) = true
    · rw [if_pos hb] at h
      rcases List.mem_cons.mp h with h2 | h2
      · rw [h2]
        simp only [extractRow_rowNumber, List.length_cons]
        omega
      · have := ih (i + 1) h2
        simp only [List.length_cons]
        omega
    · rw [if_neg hb] at h
      have := ih (i + 1) h
      simp only [List.length_cons]
      omega

theorem selectRows_sound (ci : ColumnIndices) (rows : List (List Value))
    (i : Nat) (rd : RowData) (h : rd ∈ selectRows ci i rows) :
    ∃ j, j < rows.length ∧ rd = extractRow ci (i + j) (rows.getD j []) ∧
      isBlankCell (cellAt (rows.getD j []) ci.emailSent) = true := by
  induction rows generalizing i with
  | nil => simp [selectRows] at h
  | cons row rest ih =>
    simp only [selectRows] at h
    by_cases hb : isBlankCell (cellAt row ci.emailSent) = true
    · rw [if_pos hb] at h
      rcases List.mem_cons.mp h with h2 | h2
      · exact ⟨0, by simp, by simpa using h2, by simpa using hb⟩
      · rcases ih (i + 1) h2 with ⟨j, hj1, hj2, hj3⟩
        refine ⟨j + 1, by simpa using hj1, ?_, by simpa using hj3⟩
        have : i + (j + 1) = i + 1 + j := by omega
        rw [this]
        simpa using hj2
    · rw [if_neg hb] at h
      rcases ih (i + 1) h with ⟨j, hj1, hj2, hj3⟩
      refine ⟨j + 1, by simpa using hj1, ?_, by simpa using hj3⟩
      have : i + (j + 1) = i + 1 + j := by omega
      rw [this]
      simpa using hj2

theorem selectRows_complete (ci : ColumnIndices) (rows : List (List Value))
    (i j : Nat) (hj : j < rows.length)
    (hb : isBlankCell (cellAt (rows.getD j []) ci.emailSent) = true) :
    extractRow ci (i + j) (rows.getD j []) ∈ selectRows ci i rows := by
  induction rows generalizing i j with
  | nil => simp at hj
  | cons row rest ih =>
    cases j with
    | zero =>
      simp only [List.getD_cons_zero] at hb ⊢
      simp only [selectRows, if_pos hb]
      simp
    | succ j2 =>
      simp only [List.getD_cons_succ] at hb ⊢
      have h2 := ih (i + 1) j2 (by simpa using hj) hb
      have harith : i + (j2 + 1) = i + 1 + j2 := by omega
      rw [harith]
      simp only [selectRows]
      by_cases hb0 : isBlankCell (cellAt row ci.emailSent) = true
      · rw [if_pos hb0]
        exact List.mem_cons_of_mem _ h2
      · rw [if_neg hb0]
        exact h2

theorem selectRows_pairwise (ci : ColumnIndices) (rows : List (List Value))
    (i : Nat) :
    List.Pairwise (fun a b => a.rowNumber < b.rowNumber) (selectRows ci i rows) := by
  induction rows generalizing i with
  | nil => simp [selectRows]
  | cons row rest ih =>
    simp only [selectRows]
    by_cases hb : isBlankCell (cellAt row ci.emailSent) = true
    · rw [if_pos hb]
      refine List.pairwise_cons.mpr ⟨?_, ih (i + 1)⟩
      intro y hy
      have := selectRows_mem_bounds ci rest (i + 1) y hy
      simp only [extractRow_rowNumber]
      omega
    · rw [if_neg hb]
      exact ih (i + 1)

/-!  ## Helper lemmas: event counting  -/

theorem eventsFor_append (r : Nat) (a b : List Event) :
    eventsFor r (a ++ b) = eventsFor r a ++ eventsFor r b := by
  simp [eventsFor, List.filter_append]

theorem sendsFor_nil (r : Nat) : sendsFor r [] = 0 := rfl

theorem writesFor_nil (r : Nat) : writesFor r [] = 0 := rfl

theorem sendsFor_append (r : Nat) (a b : List Event) :
    sendsFor r (a ++ b) = sendsFor r a + sendsFor r b := by
  simp [sendsFor, eventsFor, List.filter_append]

theorem writesFor_append (r : Nat) (a b : List Event) :
    writesFor r (a ++ b) = writesFor r a + writesFor r b := by
  simp [writesFor, eventsFor, List.filter_append]

theorem sendsFor_of_eventsFor_nil (r : Nat) (es : List Event)
    (h : eventsFor r es = []) : sendsFor r es = 0 := by
  simp [sendsFor, h]

theorem writesFor_of_eventsFor_nil (r : Nat) (es : List Event)
    (h : eventsFor r es = []) : writesFor r es = 0 := by
  simp [writesFor, h]

theorem sendsFor_cons (r : Nat) (e : Event) (es : List Event) :
    sendsFor r (e :: es) =
      (if eventRow e = r ∧ isSendEvent e = true then 1 else 0) + sendsFor r es := by
  by_cases h1 : eventRow e = r
  · by_cases h2 : isSendEvent e = true
    · simp [sendsFor, eventsFor, List.filter_cons, h1, h2, Nat.add_comm]
    · simp [sendsFor, eventsFor, List.filter_cons, h1, h2]
  · simp [sendsFor, eventsFor, List.filter_cons, h1]

theorem writesFor_cons (r : Nat) (e : Event) (es : List Event) :
    writesFor r (e :: es) =
      (if eventRow e = r ∧ isWriteEvent e = true then 1 else 0) + writesFor r es := by
  by_cases h1 : eventRow e = r
  · by_cases h2 : isWriteEvent e = true
    · simp [writesFor, eventsFor, List.filter_cons, h1, h2, Nat.add_comm]
    · simp [writesFor, eventsFor, List.filter_cons, h1, h2]
  · simp [writesFor, eventsFor, List.filter_cons, h1]

/-!  ## Helper lemmas: one-row processing  -/

theorem setCell_length (g : List (List Value)) (rn c : Nat) (v : Value) :
    (setCell g rn c v).length = g.length := by
  simp [setCell, List.length_set]

theorem setCell_getD_ne (g : List (List Value)) (rn c : Nat) (v : Value)
    (j : Nat) (h : rn - 1 ≠ j) : (setCell g rn c v).getD j [] = g.getD j [] :=
  getD_set_ne g (rn - 1) j _ [] h

theorem setCell_getD_self (g : List (List Value)) (rn c : Nat) (v : Value)
    (h : rn - 1 < g.length) :
    (setCell g rn c v).getD (rn - 1) [] = (g.getD (rn - 1) []).set (c - 1) v :=
  getD_set_self g (rn - 1) _ [] h

theorem setCell_row_length (g : List (List Value)) (rn c : Nat) (v : Value)
    (j : Nat) : ((setCell g rn c v).getD j []).length = (g.getD j []).length := by
  by_cases h : rn - 1 = j
  · subst h
    by_cases hl : rn - 1 < g.length
    · rw [setCell_getD_self g rn c v hl, List.length_set]
    · simp [setCell, List.set_eq_of_length_le (Nat.le_of_not_lt hl)]
  · rw [setCell_getD_ne g rn c v j h]

theorem processOneRow_snd (ci : ColumnIndices) (rule : Option DataValidation)
    (env : Env) (o : Oracle) (ts : Nat) (g : List (List Value)) (rd : RowData) :
    (processOneRow ci rule env o ts g rd).2 = rowEvents ci rule env o ts rd := by
  simp only [processOneRow, rowEvents]
  split_ifs <;> rfl

theorem processOneRow_length (ci : ColumnIndices) (rule : Option DataValidation)
    (env : Env) (o : Oracle) (ts : Nat) (g : List (List Value)) (rd : RowData) :
    (processOneRow ci rule env o ts g rd).1.length = g.length := by
  simp only [processOneRow]
  split_ifs <;> first
    | rfl
    | apply setCell_length

theorem processOneRow_fst_row_ne (ci : ColumnIndices) (rule : Option DataValidation)
    (env : Env) (o : Oracle) (ts : Nat) (g : List (List Value)) (rd : RowData)
    (j : Nat) (h : rd.rowNumber - 1 ≠ j) :
    (processOneRow ci rule env o ts g rd).1.getD j [] = g.getD j [] := by
  simp only [processOneRow]
  split_ifs <;> first
    | rfl
    | exact setCell_getD_ne g rd.rowNumber _ _ j h

theorem processOneRow_row_length (ci : ColumnIndices) (rule : Option DataValidation)
    (env : Env) (o : Oracle) (ts : Nat) (g : List (List Value)) (rd : RowData)
    (j : Nat) :
    ((processOneRow ci rule env o ts g rd).1.getD j []).length = (g.getD j []).length := by
  simp only [processOneRow]
  split_ifs <;> first
    | rfl
    | apply setCell_row_length

theorem rowEvents_eventRow (ci : ColumnIndices) (rule : Option DataValidation)
    (env : Env) (o : Oracle) (ts : Nat) (rd : RowData) :
    ∀ e ∈ rowEvents ci rule env o ts rd, eventRow e = rd.rowNumber := by
  simp only [rowEvents, processOneRow]
  split_ifs <;> simp [eventRow]

theorem rowEvents_congr (ci : ColumnIndices) (rule : Option DataValidation)
    (env : Env) (o o2 : Oracle) (ts : Nat) (rd : RowData)
    (hs : o.sendFails rd.rowNumber = o2.sendFails rd.rowNumber)
    (hw : o.writeFails rd.rowNumber = o2.writeFails rd.rowNumber) :
    rowEvents ci rule env o ts rd = rowEvents ci rule env o2 ts rd := by
  simp only [rowEvents, processOneRow]
  rw [hs, hw]

theorem eventsFor_rowEvents_self (ci : ColumnIndices) (rule : Option DataValidation)
    (env : Env) (o : Oracle) (ts : Nat) (rd : RowData) :
    eventsFor rd.rowNumber (rowEvents ci rule env o ts rd) =
      rowEvents ci rule env o ts rd := by
  simp only [eventsFor]
  apply List.filter_eq_self.mpr
  intro e he
  simp [rowEvents_eventRow ci rule env o ts rd e he]

theorem eventsFor_rowEvents_ne (ci : ColumnIndices) (rule : Option DataValidation)
    (env : Env) (o : Oracle) (ts : Nat) (rd : RowData) (r : Nat)
    (h : r ≠ rd.rowNumber) :
    eventsFor r (rowEvents ci rule env o ts rd) = [] := by
  simp only [eventsFor]
  apply List.filter_eq_nil_iff.mpr
  intro e he
  have h2 := rowEvents_eventRow ci rule env o ts rd e he
  simp [h2, beq_iff_eq]
  intro h3
  exact h h3.symm

theorem sendsFor_rowEvents_le (ci : ColumnIndices) (rule : Option DataValidation)
    (env : Env) (o : Oracle) (ts : Nat) (rd : RowData) (r : Nat) :
    sendsFor r (rowEvents ci rule env o ts rd) ≤ 1 := by
  simp only [rowEvents, processOneRow]
  split_ifs <;>
    simp [sendsFor_cons, sendsFor_nil, eventRow, isSendEvent] <;>
    split_ifs <;>
    simp

theorem writesFor_rowEvents_le (ci : ColumnIndices) (rule : Option DataValidation)
    (env : Env) (o : Oracle) (ts : Nat) (rd : RowData) (r : Nat) :
    writesFor r (rowEvents ci rule env o ts rd) ≤ 1 := by
  simp only [rowEvents, processOneRow]
  split_ifs <;>
    simp [writesFor_cons, writesFor_nil, eventRow, isWriteEvent] <;>
    split_ifs <;>
    simp

/-!  ## Helper lemmas: the row-processing loop  -/

theorem processRows_cons_snd (ci : ColumnIndices) (rule : Option DataValidation)
    (env : Env) (o : Oracle) (ts : Nat) (x : RowData) (rest : List RowData)
    (g : List (List Value)) :
    (processRows ci rule env o ts (x :: rest) g).2 =
      rowEvents ci rule env o ts x ++
        (processRows ci rule env o ts rest (processOneRow ci rule env o ts g x).1).2 := by
  simp only [processRows]
  rw [processOneRow_snd]

theorem processRows_fst_length (ci : ColumnIndices) (rule : Option DataValidation)
    (env : Env) (o : Oracle) (ts : Nat) (rows : List RowData)
    (g : List (List Value)) :
    (processRows ci rule env o ts rows g).1.length = g.length := by
  induction rows generalizing g with
  | nil => rfl
  | cons x rest ih =>
    simp only [processRows]
    rw [ih, processOneRow_length]

theorem processRows_fst_row_length (ci : ColumnIndices) (rule : Option DataValidation)
    (env : Env) (o : Oracle) (ts : Nat) (rows : List RowData)
    (g : List (List Value)) (j : Nat) :
    ((processRows ci rule env o ts rows g).1.getD j []).length =
      (g.getD j []).length := by
  induction rows generalizing g with
  | nil => rfl
  | cons x rest ih =>
    simp only [processRows]
    rw [ih, processOneRow_row_length]

theorem processRows_fst_row_ne (ci : ColumnIndices) (rule : Option DataValidation)
    (env : Env) (o : Oracle) (ts : Nat) (rows : List RowData)
    (g : List (List Value)) (j : Nat)
    (h : ∀ rd ∈ rows, rd.rowNumber - 1 ≠ j) :
    (processRows ci rule env o ts rows g).1.getD j [] = g.getD j [] := by
  induction rows generalizing g with
  | nil => rfl
  | cons x rest ih =>
    simp only [processRows]
    rw [ih _ fun rd hrd => h rd (List.mem_cons_of_mem _ hrd),
        processOneRow_fst_row_ne _ _ _ _ _ _ _ _ (h x (List.mem_cons_self _ _))]

theorem eventsFor_processRows_ne (ci : ColumnIndices) (rule : Option DataValidation)
    (env : Env) (o : Oracle) (ts : Nat) (rows : List RowData)
    (g : List (List Value)) (r : Nat)
    (h : ∀ rd ∈ rows, rd.rowNumber ≠ r) :
    eventsFor r (processRows ci rule env o ts rows g).2 = [] := by
  induction rows generalizing g with
  | nil => rfl
  | cons x rest ih =>
    rw [processRows_cons_snd, eventsFor_append,
        eventsFor_rowEvents_ne _ _ _ _ _ _ _ (fun he => h x (List.mem_cons_self _ _) he.symm),
        ih _ fun rd hrd => h rd (List.mem_cons_of_mem _ hrd)]
    rfl

theorem eventsFor_processRows_mem (ci : ColumnIndices) (rule : Option DataValidation)
    (env : Env) (o : Oracle) (ts : Nat) (rows : List RowData)
    (g : List (List Value)) (rd : RowData)
    (hpw : List.Pairwise (fun a b => a.rowNumber < b.rowNumber) rows)
    (hmem : rd ∈ rows) :
    eventsFor rd.rowNumber (processRows ci rule env o ts rows g).2 =
      rowEvents ci rule env o ts rd := by
  induction rows generalizing g with
  | nil => simp at hmem
  | cons x rest ih =>
    rw [processRows_cons_snd, eventsFor_append]
    rcases List.mem_cons.mp hmem with h1 | h1
    · subst h1
      rw [eventsFor_rowEvents_self,
          eventsFor_processRows_ne _ _ _ _ _ _ _ _ ?_]
      · simp
      · intro y hy
        have := (List.pairwise_cons.mp hpw).1 y hy
        omega
    · have hlt := (List.pairwise_cons.mp hpw).1 rd h1
      rw [eventsFor_rowEvents_ne _ _ _ _ _ _ _ (by omega),
          ih _ (List.pairwise_cons.mp hpw).2 h1]
      simp

theorem sendsFor_processRows_le (ci : ColumnIndices) (rule : Option DataValidation)
    (env : Env) (o : Oracle) (ts : Nat) (rows : List RowData)
    (g : List (List Value)) (r : Nat)
    (hpw : List.Pairwise (fun a b => a.rowNumber < b.rowNumber) rows) :
    sendsFor r (processRows ci rule env o ts rows g).2 ≤ 1 := by
  induction rows generalizing g with
  | nil => exact Nat.zero_le 1
  | cons x rest ih =>
    rw [processRows_cons_snd, sendsFor_append]
    by_cases hx : x.rowNumber = r
    · have hrest : eventsFor r (processRows ci rule env o ts rest
          (processOneRow ci rule env o ts g x).1).2 = [] := by
        apply eventsFor_processRows_ne
        intro y hy
        have := (List.pairwise_cons.mp hpw).1 y hy
        omega
      rw [sendsFor_of_eventsFor_nil _ _ hrest]
      have := sendsFor_rowEvents_le ci rule env o ts x r
      omega
    · rw [sendsFor_of_eventsFor_nil r _
        (eventsFor_rowEvents_ne _ _ _ _ _ _ _ fun he => hx he.symm)]
      have := ih (processOneRow ci rule env o ts g x).1 (List.pairwise_cons.mp hpw).2
      omega

theorem writesFor_processRows_le (ci : ColumnIndices) (rule : Option DataValidation)
    (env : Env) (o : Oracle) (ts : Nat) (rows : List RowData)
    (g : List (List Value)) (r : Nat)
    (hpw : List.Pairwise (fun a b => a.rowNumber < b.rowNumber) rows) :
    writesFor r (processRows ci rule env o ts rows g).2 ≤ 1 := by
  induction rows generalizing g with
  | nil => exact Nat.zero_le 1
  | cons x rest ih =>
    rw [processRows_cons_snd, writesFor_append]
    by_cases hx : x.rowNumber = r
    · have hrest : eventsFor r (processRows ci rule env o ts rest
          (processOneRow ci rule env o ts g x).1).2 = [] := by
        apply eventsFor_processRows_ne
        intro y hy
        have := (List.pairwise_cons.mp hpw).1 y hy
        omega
      rw [writesFor_of_eventsFor_nil _ _ hrest]
      have := writesFor_rowEvents_le ci rule env o ts x r
      omega
    · rw [writesFor_of_eventsFor_nil r _
        (eventsFor_rowEvents_ne _ _ _ _ _ _ _ fun he => hx he.symm)]
      have := ih (processOneRow ci rule env o ts g x).1 (List.pairwise_cons.mp hpw).2
      omega

theorem processOneRow_fst_success (ci : ColumnIndices) (rule : Option DataValidation)
    (env : Env) (o : Oracle) (ts : Nat) (g : List (List Value)) (rd : RowData)
    (hwf : o.writeFails rd.rowNumber = false)
    (hsf : isValidName rule rd.name env.ranges = true → o.sendFails rd.rowNumber = false) :
    ∃ w, (processOneRow ci rule env o ts g rd).1 =
        setCell g rd.rowNumber (ci.emailSent + 1) w ∧ isBlankCell w = false := by
  by_cases hv : isValidName rule rd.name env.ranges = true
  · refine ⟨Value.vdate ts, ?_, isBlankCell_vdate ts⟩
    simp [processOneRow, hv, hsf hv, hwf]
  · refine ⟨Value.str "invalid name", ?_, isBlankCell_sentinel⟩
    have hv2 : isValidName rule rd.name env.ranges = false := by
      simpa using hv
    simp [processOneRow, hv2, hwf]

theorem processOneRow_fst_fail (ci : ColumnIndices) (rule : Option DataValidation)
    (env : Env) (o : Oracle) (ts : Nat) (g : List (List Value)) (rd : RowData)
    (hf : rowFails rule env o rd = true) :
    (processOneRow ci rule env o ts g rd).1 = g := by
  simp only [rowFails] at hf
  by_cases hv : isValidName rule rd.name env.ranges = true
  · rw [if_pos hv] at hf
    cases hor : o.sendFails rd.rowNumber with
    | true => simp [processOneRow, hv, hor]
    | false =>
      rw [hor] at hf
      simp only [Bool.false_or] at hf
      simp [processOneRow, hv, hor, hf]
  · have hv2 : isValidName rule rd.name env.ranges = false := by simpa using hv
    rw [hv2] at hf
    simp only [Bool.false_eq_true, if_false] at hf
    simp [processOneRow, hv2, hf]

theorem processRows_cell_nonblank (ci : ColumnIndices) (rule : Option DataValidation)
    (env : Env) (o : Oracle) (ts : Nat) (rows : List RowData)
    (g : List (List Value)) (rd : RowData)
    (hpw : List.Pairwise (fun a b => a.rowNumber < b.rowNumber) rows)
    (h2 : ∀ x ∈ rows, 2 ≤ x.rowNumber)
    (hmem : rd ∈ rows)
    (hwf : o.writeFails rd.rowNumber = false)
    (hsf : isValidName rule rd.name env.ranges = true → o.sendFails rd.rowNumber = false)
    (hlen : rd.rowNumber - 1 < g.length)
    (hcol : ci.emailSent < (g.getD (rd.rowNumber - 1) []).length) :
    isBlankCell (cellAt ((processRows ci rule env o ts rows g).1.getD (rd.rowNumber - 1) [])
      ci.emailSent) = false := by
  induction rows generalizing g with
  | nil => simp at hmem
  | cons x rest ih =>
    simp only [processRows]
    rcases List.mem_cons.mp hmem with he | he
    · subst he
      obtain ⟨w, hw1, hw2⟩ :=
        processOneRow_fst_success ci rule env o ts g rd hwf hsf
      have hrest : (processRows ci rule env o ts rest
            (processOneRow ci rule env o ts g rd).1).1.getD (rd.rowNumber - 1) [] =
          (processOneRow ci rule env o ts g rd).1.getD (rd.rowNumber - 1) [] := by
        apply processRows_fst_row_ne
        intro y hy
        have hlt := (List.pairwise_cons.mp hpw).1 y hy
        have h2y := h2 y (List.mem_cons_of_mem _ hy)
        have h2x := h2 rd (List.mem_cons_self _ _)
        omega
      rw [hrest, hw1, setCell_getD_self _ _ _ _ hlen]
      have hsub : ci.emailSent + 1 - 1 = ci.emailSent := by omega
      rw [hsub]
      have : cellAt ((g.getD (rd.rowNumber - 1) []).set ci.emailSent w) ci.emailSent = w := by
        simp only [cellAt]
        exact getD_set_self _ _ _ _ hcol
      rw [this]
      exact hw2
    · have h2x := h2 x (List.mem_cons_self _ _)
      have h2r := h2 rd (List.mem_cons_of_mem _ he)
      have hlt := (List.pairwise_cons.mp hpw).1 rd he
      have hne : x.rowNumber - 1 ≠ rd.rowNumber - 1 := by omega
      have hg1a : (processOneRow ci rule env o ts g x).1.getD (rd.rowNumber - 1) [] =
          g.getD (rd.rowNumber - 1) [] :=
        processOneRow_fst_row_ne _ _ _ _ _ _ _ _ hne
      refine ih (processOneRow ci rule env o ts g x).1 (List.pairwise_cons.mp hpw).2
        (fun y hy => h2 y (List.mem_cons_of_mem _ hy)) he ?_ ?_
      · rw [processOneRow_length]
        exact hlen
      · rw [hg1a]
        exact hcol

theorem processRows_fst_row_of_fail (ci : ColumnIndices) (rule : Option DataValidation)
    (env : Env) (o : Oracle) (ts : Nat) (rows : List RowData)
    (g : List (List Value)) (rd : RowData)
    (hpw : List.Pairwise (fun a b => a.rowNumber < b.rowNumber) rows)
    (h1 : ∀ x ∈ rows, 1 ≤ x.rowNumber)
    (hmem : rd ∈ rows)
    (hf : rowFails rule env o rd = true) :
    (processRows ci rule env o ts rows g).1.getD (rd.rowNumber - 1) [] =
      g.getD (rd.rowNumber - 1) [] := by
  induction rows generalizing g with
  | nil => rfl
  | cons x rest ih =>
    simp only [processRows]
    rcases List.mem_cons.mp hmem with he | he
    · subst he
      rw [processOneRow_fst_fail ci rule env o ts g rd hf]
      apply processRows_fst_row_ne
      intro y hy
      have hlt := (List.pairwise_cons.mp hpw).1 y hy
      have h1x := h1 rd (List.mem_cons_self _ _)
      omega
    · have hlt := (List.pairwise_cons.mp hpw).1 rd he
      have h1x := h1 x (List.mem_cons_self _ _)
      have hne : x.rowNumber - 1 ≠ rd.rowNumber - 1 := by omega
      rw [ih _ (List.pairwise_cons.mp hpw).2
            (fun y hy => h1 y (List.mem_cons_of_mem _ hy)) he,
          processOneRow_fst_row_ne _ _ _ _ _ _ _ _ hne]

theorem eventsFor_processRows_congr (ci : ColumnIndices) (rule : Option DataValidation)
    (env : Env) (o o2 : Oracle) (ts : Nat) (rows : List RowData)
    (g g2 : List (List Value)) (r : Nat)
    (hs : o.sendFails r = o2.sendFails r)
    (hw : o.writeFails r = o2.writeFails r) :
    eventsFor r (processRows ci rule env o ts rows g).2 =
      eventsFor r (processRows ci rule env o2 ts rows g2).2 := by
  induction rows generalizing g g2 with
  | nil => rfl
  | cons x rest ih =>
    rw [processRows_cons_snd, processRows_cons_snd, eventsFor_append, eventsFor_append]
    by_cases hx : x.rowNumber = r
    · have hcong : rowEvents ci rule env o ts x = rowEvents ci rule env o2 ts x :=
        rowEvents_congr _ _ _ _ _ _ _ (by rw [hx]; exact hs) (by rw [hx]; exact hw)
      rw [hcong, ih _ _]
    · rw [eventsFor_rowEvents_ne _ _ _ _ _ _ _ fun he => hx he.symm,
          eventsFor_rowEvents_ne _ _ _ _ _ _ _ fun he => hx he.symm,
          ih _ _]

theorem sendsFor_processRows_pos (ci : ColumnIndices) (rule : Option DataValidation)
    (env : Env) (o : Oracle) (ts : Nat) (rows : List RowData)
    (g : List (List Value)) (r : Nat)
    (h : 1 ≤ sendsFor r (processRows ci rule env o ts rows g).2) :
    ∃ rd ∈ rows, rd.rowNumber = r ∧ isValidName rule rd.name env.ranges = true ∧
      o.sendFails rd.rowNumber = false := by
  induction rows generalizing g with
  | nil => simp [processRows, sendsFor_nil] at h
  | cons x rest ih =>
    rw [processRows_cons_snd, sendsFor_append] at h
    by_cases hc : 1 ≤ sendsFor r (rowEvents ci rule env o ts x)
    · by_cases hv : isValidName rule x.name env.ranges = true
      · by_cases hs : o.sendFails x.rowNumber = true
        · exfalso
          have : rowEvents ci rule env o ts x = [] := by
            simp [rowEvents, processOneRow, hv, hs]
          rw [this] at hc
          simp [sendsFor_nil] at hc
        · have hs2 : o.sendFails x.rowNumber = false := by simpa using hs
          have hrow : x.rowNumber = r := by
            by_contra hne
            have h0 := sendsFor_of_eventsFor_nil r _
              (eventsFor_rowEvents_ne ci rule env o ts x r fun he => hne he.symm)
            omega
          exact ⟨x, List.mem_cons_self _ _, hrow, hv, hs2⟩
      · exfalso
        have hv2 : isValidName rule x.name env.ranges = false := by simpa using hv
        have h0 : sendsFor r (rowEvents ci rule env o ts x) = 0 := by
          cases hwx : o.writeFails x.rowNumber with
          | true => simp [rowEvents, processOneRow, hv2, hwx, sendsFor_nil]
          | false =>
            simp [rowEvents, processOneRow, hv2, hwx, sendsFor_cons, sendsFor_nil,
              isSendEvent]
        omega
    · have hrest : 1 ≤ sendsFor r (processRows ci rule env o ts rest
          (processOneRow ci rule env o ts g x).1).2 := by omega
      rcases ih _ hrest with ⟨rd, hrd, hh1, hh2, hh3⟩
      exact ⟨rd, List.mem_cons_of_mem _ hrd, hh1, hh2, hh3⟩

/-!  ## Helper lemmas: grids and whole-sheet runs  -/

theorem getD_get {α : Type} (l : List α) (j : Nat) (d : α) (h : j < l.length) :
    l.getD j d = l.get ⟨j, h⟩ := by
  induction l generalizing j with
  | nil => simp at h
  | cons x xs ih =>
    cases j with
    | zero => rfl
    | succ j2 => simpa using ih j2 (by simpa using h)

theorem headD_eq_getD (values : List (List Value)) :
    values.headD [] = values.getD 0 [] := by
  cases values <;> rfl

theorem rectangular_row_length (values : List (List Value))
    (h : rectangular values = true) (j : Nat) (hj : j < values.length) :
    (values.getD j []).length = (values.headD []).length := by
  have hmem := getD_mem values j [] hj
  have h2 := (List.all_eq_true.mp h) _ hmem
  simpa [beq_iff_eq] using h2

theorem rectangular_of_rows (values : List (List Value))
    (h : ∀ j, j < values.length → (values.getD j []).length = (values.headD []).length) :
    rectangular values = true := by
  apply List.all_eq_true.mpr
  intro row hrow
  rcases List.mem_iff_get.mp hrow with ⟨⟨j, hj⟩, rfl⟩
  have := h j hj
  rw [getD_get values j [] hj] at this
  rw [List.get_eq_getElem] at this
  simpa [beq_iff_eq] using this

theorem selectRows_nil_of_nonblank (ci : ColumnIndices) (rows : List (List Value))
    (i : Nat)
    (h : ∀ j, j < rows.length → isBlankCell (cellAt (rows.getD j []) ci.emailSent) = false) :
    selectRows ci i rows = [] := by
  cases hsel : selectRows ci i rows with
  | nil => rfl
  | cons a l =>
    exfalso
    have hmem : a ∈ selectRows ci i rows := by rw [hsel]; exact List.mem_cons_self _ _
    rcases selectRows_sound ci rows i a hmem with ⟨j, hj, _, hblank⟩
    rw [h j hj] at hblank
    exact Bool.false_ne_true hblank

theorem unprocessedRows_bounds (ci : ColumnIndices) (values : List (List Value))
    (x : RowData) (hx : x ∈ unprocessedRows ci values) :
    2 ≤ x.rowNumber ∧ x.rowNumber ≤ values.length := by
  have := selectRows_mem_bounds ci (values.drop 1) 1 x hx
  rw [List.length_drop] at this
  omega

theorem unprocessedRows_pairwise (ci : ColumnIndices) (values : List (List Value)) :
    List.Pairwise (fun a b => a.rowNumber < b.rowNumber) (unprocessedRows ci values) :=
  selectRows_pairwise ci (values.drop 1) 1

theorem unprocessedRows_sound (ci : ColumnIndices) (values : List (List Value))
    (rd : RowData) (h : rd ∈ unprocessedRows ci values) :
    rd.rowNumber ≤ values.length ∧ 2 ≤ rd.rowNumber ∧
      isBlankCell (cellAt (values.getD (rd.rowNumber - 1) []) ci.emailSent) = true := by
  have hb := unprocessedRows_bounds ci values rd h
  rcases selectRows_sound ci (values.drop 1) 1 rd h with ⟨j, hj, hrd, hblank⟩
  have hrn : rd.rowNumber = j + 2 := by rw [hrd]; simp; omega
  have hcell : (values.drop 1).getD j [] = values.getD (rd.rowNumber - 1) [] := by
    rw [getD_drop]
    have : 1 + j = rd.rowNumber - 1 := by omega
    rw [this]
  rw [hcell] at hblank
  exact ⟨hb.2, hb.1, hblank⟩

theorem unprocessedRows_complete (ci : ColumnIndices) (values : List (List Value))
    (j : Nat) (h1 : 1 ≤ j) (h2 : j < values.length)
    (hb : isBlankCell (cellAt (values.getD j []) ci.emailSent) = true) :
    ∃ rd ∈ unprocessedRows ci values, rd.rowNumber = j + 1 := by
  have hcell : values.getD j [] = (values.drop 1).getD (j - 1) [] := by
    rw [getD_drop]
    have : 1 + (j - 1) = j := by omega
    rw [this]
  rw [hcell] at hb
  have hjlt : j - 1 < (values.drop 1).length := by
    rw [List.length_drop]
    omega
  have hmem := selectRows_complete ci (values.drop 1) 1 (j - 1) hjlt hb
  refine ⟨_, hmem, ?_⟩
  simp
  omega

theorem processSheet_eq_none (sheet : Sheet) (env : Env) (o : Oracle) (ts : Nat)
    (h : readColumnData sheet = none) :
    processSheet sheet env o ts = ⟨sheet.values, []⟩ := by
  simp [processSheet, h]

theorem processSheet_eq_some (sheet : Sheet) (env : Env) (o : Oracle) (ts : Nat)
    (cd : ColumnData) (h : readColumnData sheet = some cd) :
    processSheet sheet env o ts =
      ⟨(processRows cd.columnIndices cd.nameValidation env o ts
          (unprocessedRows cd.columnIndices cd.values) cd.values).1,
        (processRows cd.columnIndices cd.nameValidation env o ts
          (unprocessedRows cd.columnIndices cd.values) cd.values).2⟩ := by
  simp [processSheet, h]

theorem processSheet_sendsFor_le (sheet : Sheet) (env : Env) (o : Oracle) (ts : Nat)
    (r : Nat) : sendsFor r (processSheet sheet env o ts).events ≤ 1 := by
  cases h : readColumnData sheet with
  | none => rw [processSheet_eq_none sheet env o ts h]; exact Nat.zero_le 1
  | some cd =>
    rw [processSheet_eq_some sheet env o ts cd h]
    exact sendsFor_processRows_le _ _ _ _ _ _ _ _
      (unprocessedRows_pairwise cd.columnIndices cd.values)

theorem processSheet_writesFor_le (sheet : Sheet) (env : Env) (o : Oracle) (ts : Nat)
    (r : Nat) : writesFor r (processSheet sheet env o ts).events ≤ 1 := by
  cases h : readColumnData sheet with
  | none => rw [processSheet_eq_none sheet env o ts h]; exact Nat.zero_le 1
  | some cd =>
    rw [processSheet_eq_some sheet env o ts cd h]
    exact writesFor_processRows_le _ _ _ _ _ _ _ _
      (unprocessedRows_pairwise cd.columnIndices cd.values)

theorem processSheet_grid_length (sheet : Sheet) (env : Env) (o : Oracle) (ts : Nat) :
    (processSheet sheet env o ts).grid.length = sheet.values.length := by
  cases h : readColumnData sheet with
  | none => rw [processSheet_eq_none sheet env o ts h]
  | some cd =>
    rw [processSheet_eq_some sheet env o ts cd h]
    have hv := (readColumnData_some sheet cd h).2.2
    simp only [processRows_fst_length]
    rw [hv]

theorem processSheet_grid_header (sheet : Sheet) (env : Env) (o : Oracle) (ts : Nat) :
    (processSheet sheet env o ts).grid.getD 0 [] = sheet.values.getD 0 [] := by
  cases h : readColumnData sheet with
  | none => rw [processSheet_eq_none sheet env o ts h]
  | some cd =>
    rw [processSheet_eq_some sheet env o ts cd h]
    have hv := (readColumnData_some sheet cd h).2.2
    simp only
    rw [processRows_fst_row_ne, hv]
    intro rd hrd
    have := unprocessedRows_bounds cd.columnIndices cd.values rd hrd
    omega

theorem processSheet_grid_row_length (sheet : Sheet) (env : Env) (o : Oracle)
    (ts : Nat) (j : Nat) :
    ((processSheet sheet env o ts).grid.getD j []).length =
      (sheet.values.getD j []).length := by
  cases h : readColumnData sheet with
  | none => rw [processSheet_eq_none sheet env o ts h]
  | some cd =>
    rw [processSheet_eq_some sheet env o ts cd h]
    have hv := (readColumnData_some sheet cd h).2.2
    simp only [processRows_fst_row_length]
    rw [hv]

theorem processSheet_rectangular (sheet : Sheet) (env : Env) (o : Oracle) (ts : Nat)
    (h : rectangular sheet.values = true) :
    rectangular (processSheet sheet env o ts).grid = true := by
  apply rectangular_of_rows
  intro j hj
  rw [processSheet_grid_length] at hj
  rw [processSheet_grid_row_length, headD_eq_getD, processSheet_grid_header,
    ← headD_eq_getD]
  exact rectangular_row_length sheet.values h j hj

theorem readColumnData_successor (sheet : Sheet) (env : Env) (o : Oracle) (ts : Nat)
    (cd : ColumnData) (h : readColumnData sheet = some cd) :
    readColumnData { sheet with values := (processSheet sheet env o ts).grid } =
      some ⟨cd.columnIndices, (processSheet sheet env o ts).grid,
        sheet.validation 2 (cd.columnIndices.name + 1)⟩ := by
  rcases readColumnData_some sheet cd h with ⟨hlen, hres, _⟩
  have hlen2 : ¬(processSheet sheet env o ts).grid.length < 2 := by
    rw [processSheet_grid_length]
    omega
  have hhead : (processSheet sheet env o ts).grid.headD [] = sheet.values.headD [] := by
    rw [headD_eq_getD, headD_eq_getD]
    exact processSheet_grid_header sheet env o ts
  simp only [readColumnData, hlen2, if_false, hhead, hres]

theorem notSelected_of_nonblank (ci : ColumnIndices) (values : List (List Value))
    (r : Nat)
    (hnb : isBlankCell (cellAt (values.getD (r - 1) []) ci.emailSent) = false) :
    ∀ rd ∈ unprocessedRows ci values, rd.rowNumber ≠ r := by
  intro rd hrd he
  have hs := unprocessedRows_sound ci values rd hrd
  rw [he] at hs
  rw [hs.2.2] at hnb
  exact absurd hnb (by decide)

theorem processSheet_not_selected (sheet : Sheet) (env : Env) (o : Oracle) (ts : Nat)
    (cd : ColumnData) (r : Nat)
    (h : readColumnData sheet = some cd)
    (hnot : ∀ rd ∈ unprocessedRows cd.columnIndices cd.values, rd.rowNumber ≠ r) :
    eventsFor r (processSheet sheet env o ts).events = [] ∧
    (processSheet sheet env o ts).grid.getD (r - 1) [] =
      sheet.values.getD (r - 1) [] := by
  have hv := (readColumnData_some sheet cd h).2.2
  rw [processSheet_eq_some sheet env o ts cd h]
  constructor
  · exact eventsFor_processRows_ne _ _ _ _ _ _ _ _ hnot
  · simp only
    rw [processRows_fst_row_ne, hv]
    intro rd hrd
    have hb := unprocessedRows_bounds _ _ rd hrd
    have := hnot rd hrd
    omega

theorem processSheet_send_written (sheet : Sheet) (env : Env) (o : Oracle) (ts : Nat)
    (r : Nat)
    (hcond : ∀ n, o.sendFails n = false → o.writeFails n = false)
    (hrect : rectangular sheet.values = true)
    (hpos : 1 ≤ sendsFor r (processSheet sheet env o ts).events) :
    ∃ cd, readColumnData sheet = some cd ∧
      isBlankCell (cellAt ((processSheet sheet env o ts).grid.getD (r - 1) [])
        cd.columnIndices.emailSent) = false := by
  cases h : readColumnData sheet with
  | none =>
    rw [processSheet_eq_none sheet env o ts h] at hpos
    simp [sendsFor_nil] at hpos
  | some cd =>
    rcases readColumnData_some sheet cd h with ⟨hlen, hres, hv⟩
    refine ⟨cd, rfl, ?_⟩
    rw [processSheet_eq_some sheet env o ts cd h] at hpos ⊢
    simp only at hpos ⊢
    rcases sendsFor_processRows_pos _ _ _ _ _ _ _ _ hpos with ⟨rd, hrd, hrn, hvld, hsf⟩
    have hb := unprocessedRows_bounds cd.columnIndices cd.values rd hrd
    rw [← hrn]
    apply processRows_cell_nonblank cd.columnIndices cd.nameValidation env o ts _ _ rd
      (unprocessedRows_pairwise cd.columnIndices cd.values)
      (fun y hy => (unprocessedRows_bounds _ _ y hy).1) hrd
      (hcond _ hsf) (fun _ => hsf)
    · omega
    · rw [hv] at hb ⊢
      have hrl := rectangular_row_length sheet.values hrect (rd.rowNumber - 1) (by omega)
      rw [hrl]
      exact resolveColumns_emailSent_lt _ _ hres

theorem runSeq_cons_snd (env : Env) (s : Sheet) (p : Oracle × Nat)
    (rest : List (Oracle × Nat)) :
    (runSeq env s (p :: rest)).2 =
      (processSheet s env p.1 p.2).events ++
        (runSeq env { s with values := (processSheet s env p.1 p.2).grid } rest).2 := rfl

theorem runSeq_sendsFor (env : Env) (r : Nat) (runs : List (Oracle × Nat)) (s : Sheet)
    (hrect : rectangular s.values = true)
    (hcond : ∀ p ∈ runs, ∀ n, (p.1).sendFails n = false → (p.1).writeFails n = false) :
    sendsFor r (runSeq env s runs).2 ≤ 1 ∧
    (∀ cd, readColumnData s = some cd →
      isBlankCell (cellAt (s.values.getD (r - 1) []) cd.columnIndices.emailSent) = false →
      sendsFor r (runSeq env s runs).2 = 0) := by
  induction runs generalizing s with
  | nil => exact ⟨Nat.zero_le 1, fun _ _ _ => rfl⟩
  | cons p rest ih =>
    rw [runSeq_cons_snd, sendsFor_append]
    have hrect2 : rectangular
        ({ s with values := (processSheet s env p.1 p.2).grid } : Sheet).values = true :=
      processSheet_rectangular s env p.1 p.2 hrect
    have hcond1 := hcond p (List.mem_cons_self _ _)
    have ihh := ih { s with values := (processSheet s env p.1 p.2).grid } hrect2
      (fun q hq => hcond q (List.mem_cons_of_mem _ hq))
    by_cases hz : sendsFor r (processSheet s env p.1 p.2).events = 0
    · constructor
      · rw [hz, Nat.zero_add]
        exact ihh.1
      · intro cd hcd hnb
        have hv := (readColumnData_some s cd hcd).2.2
        have hnot : ∀ rd ∈ unprocessedRows cd.columnIndices cd.values,
            rd.rowNumber ≠ r := by
          rw [hv]
          exact notSelected_of_nonblank cd.columnIndices s.values r hnb
        rcases processSheet_not_selected s env p.1 p.2 cd r hcd hnot with ⟨_, hgrid⟩
        have hsucc := readColumnData_successor s env p.1 p.2 cd hcd
        rw [hz, Nat.zero_add]
        apply ihh.2 _ hsucc
        show isBlankCell (cellAt ((processSheet s env p.1 p.2).grid.getD (r - 1) [])
          cd.columnIndices.emailSent) = false
        rw [hgrid]
        exact hnb
    · have hle := processSheet_sendsFor_le s env p.1 p.2 r
      have hpos : 1 ≤ sendsFor r (processSheet s env p.1 p.2).events := by omega
      rcases processSheet_send_written s env p.1 p.2 r hcond1 hrect hpos
        with ⟨cd, hcd, hnb2⟩
      have hsucc := readColumnData_successor s env p.1 p.2 cd hcd
      have hrest0 : sendsFor r
          (runSeq env { s with values := (processSheet s env p.1 p.2).grid } rest).2 = 0 := by
        apply ihh.2 _ hsucc
        exact hnb2
      constructor
      · omega
      · intro cd0 hcd0 hnb0
        exfalso
        have hcdeq : cd0 = cd := by
          rw [hcd0] at hcd
          exact (Option.some.injEq _ _).mp hcd
        subst hcdeq
        have hv := (readColumnData_some s cd0 hcd).2.2
        have hnot : ∀ rd ∈ unprocessedRows cd0.columnIndices cd0.values,
            rd.rowNumber ≠ r := by
          rw [hv]
          exact notSelected_of_nonblank cd0.columnIndices s.values r hnb0
        rcases processSheet_not_selected s env p.1 p.2 cd0 r hcd hnot with ⟨hev, _⟩
        have := sendsFor_of_eventsFor_nil r _ hev
        omega

theorem processSheet_grid_nonblank_all (sheet : Sheet) (env : Env) (o : Oracle)
    (ts : Nat) (cd : ColumnData)
    (h : readColumnData sheet = some cd)
    (hrect : rectangular sheet.values = true)
    (hnf1 : ∀ rr, o.sendFails rr = false)
    (hnf2 : ∀ rr, o.writeFails rr = false)
    (j : Nat) (hj1 : 1 ≤ j) (hj2 : j < sheet.values.length) :
    isBlankCell (cellAt ((processSheet sheet env o ts).grid.getD j [])
      cd.columnIndices.emailSent) = false := by
  rcases readColumnData_some sheet cd h with ⟨hlen, hres, hv⟩
  by_cases hb : isBlankCell (cellAt (sheet.values.getD j [])
      cd.columnIndices.emailSent) = true
  · rcases unprocessedRows_complete cd.columnIndices sheet.values j hj1 hj2 hb
      with ⟨rd, hrd, hrn⟩
    have hj : rd.rowNumber - 1 = j := by omega
    rw [processSheet_eq_some sheet env o ts cd h]
    simp only
    rw [← hj]
    have hrd2 : rd ∈ unprocessedRows cd.columnIndices cd.values := by
      rw [hv]
      exact hrd
    apply processRows_cell_nonblank cd.columnIndices cd.nameValidation env o ts _ _ rd
      (unprocessedRows_pairwise cd.columnIndices cd.values)
      (fun y hy => (unprocessedRows_bounds _ _ y hy).1) hrd2
      (hnf2 _) (fun _ => hnf1 _)
    · rw [hv]
      omega
    · rw [hv]
      have hrl := rectangular_row_length sheet.values hrect (rd.rowNumber - 1)
        (by omega)
      rw [hrl]
      exact resolveColumns_emailSent_lt _ _ hres
  · have hb2 : isBlankCell (cellAt (sheet.values.getD j [])
        cd.columnIndices.emailSent) = false := by simpa using hb
    have hnot : ∀ rd ∈ unprocessedRows cd.columnIndices cd.values,
        rd.rowNumber ≠ j + 1 := by
      rw [hv]
      exact notSelected_of_nonblank cd.columnIndices sheet.values (j + 1) hb2
    rcases processSheet_not_selected sheet env o ts cd (j + 1) h hnot with ⟨_, hgrid⟩
    have hgrid2 : (processSheet sheet env o ts).grid.getD j [] =
        sheet.values.getD j [] := hgrid
    rw [hgrid2]
    exact hb2

theorem selectRows_eq_enumFrom (ci : ColumnIndices) (rows : List (List Value))
    (i : Nat) :
    selectRows ci i rows = (List.enumFrom i rows).filterMap fun p =>
      if isBlankCell (cellAt p.2 ci.emailSent) then some (extractRow ci p.1 p.2)
      else none := by
  induction rows generalizing i with
  | nil => rfl
  | cons row rest ih =>
    rw [List.enumFrom_cons, List.filterMap_cons]
    simp only [selectRows]
    by_cases hb : isBlankCell (cellAt row ci.emailSent) = true
    · rw [if_pos hb, if_pos hb, ih (i + 1)]
    · rw [if_neg hb, if_neg hb, ih (i + 1)]

/-!  ## The claims  -/

/-- Claim C1, counterexample: the lifetime at-most-once property fails
under per-row failures.  With a first run whose timestamp write throws
after a successful send and a failure-free second run, the single data
row of sheet0 receives two notifications. -/
theorem c1_counterexample :
    sendsFor 2 (runSeq env0 sheet0 [(writeThrows, 0), (allOk, 1)]).2 = 2 := by
  decide

/-- Claim C1, amended: per run each row gets at most one notification
and at most one cell write, unconditionally; and across any sequence of
runs without external edits, each row gets at most one notification
provided that in every run a successful dispatch is always followed by a
successful timestamp write. -/
theorem c1_amended : ∀ (env : Env) (r : Nat) (sheet : Sheet) (o : Oracle) (ts : Nat)
    (runs : List (Oracle × Nat)),
    (sendsFor r (processSheet sheet env o ts).events ≤ 1 ∧
     writesFor r (processSheet sheet env o ts).events ≤ 1) ∧
    (rectangular sheet.values = true →
      (∀ p ∈ runs, ∀ n, (p.1).sendFails n = false → (p.1).writeFails n = false) →
      sendsFor r (runSeq env sheet runs).2 ≤ 1) :=
  fun env r sheet o ts runs =>
    ⟨⟨processSheet_sendsFor_le sheet env o ts r,
      processSheet_writesFor_le sheet env o ts r⟩,
     fun hrect hcond => (runSeq_sendsFor env r runs sheet hrect hcond).1⟩

/-- Claim C1, witness for the amended theorem at a concrete sheet and
run sequence. -/
theorem c1_witness :
    (sendsFor 2 (processSheet sheet0 env0 writeThrows 0).events ≤ 1 ∧
     writesFor 2 (processSheet sheet0 env0 writeThrows 0).events ≤ 1) ∧
    sendsFor 2 (runSeq env0 sheet0 [(allOk, 0), (allOk, 1)]).2 ≤ 1 := by
  have h := c1_amended env0 2 sheet0 writeThrows 0 [(allOk, 0), (allOk, 1)]
  refine ⟨h.1, h.2 (by decide) ?_⟩
  intro p hp n _
  rcases List.mem_cons.mp hp with h2 | h2
  · subst h2
    rfl
  · have h3 := List.mem_singleton.mp h2
    subst h3
    rfl

/-- Claim C2: running processSheet twice in succession with no external
edits in between (same validation accessor, the second run starting from
the grid the first run left) produces no events at all on the second
run, provided the first run is failure-free and the grid is rectangular. -/
theorem c2 : ∀ (sheet : Sheet) (env : Env) (o1 o2 : Oracle) (ts1 ts2 : Nat),
    rectangular sheet.values = true →
    (∀ rr, o1.sendFails rr = false) →
    (∀ rr, o1.writeFails rr = false) →
    (processSheet { sheet with values := (processSheet sheet env o1 ts1).grid }
      env o2 ts2).events = [] := by
  intro sheet env o1 o2 ts1 ts2 hrect hnf1 hnf2
  cases h : readColumnData sheet with
  | none =>
    have hgrid : (processSheet sheet env o1 ts1).grid = sheet.values := by
      rw [processSheet_eq_none sheet env o1 ts1 h]
    have hsheet : ({ sheet with values := (processSheet sheet env o1 ts1).grid } :
        Sheet) = sheet := by
      rw [hgrid]
    rw [hsheet, processSheet_eq_none sheet env o2 ts2 h]
  | some cd =>
    have hsucc := readColumnData_successor sheet env o1 ts1 cd h
    have hlen := processSheet_grid_length sheet env o1 ts1
    have hsel : unprocessedRows cd.columnIndices
        (processSheet sheet env o1 ts1).grid = [] := by
      show selectRows cd.columnIndices 1
        ((processSheet sheet env o1 ts1).grid.drop 1) = []
      apply selectRows_nil_of_nonblank
      intro j hj
      rw [List.length_drop, hlen] at hj
      rw [getD_drop]
      exact processSheet_grid_nonblank_all sheet env o1 ts1 cd h hrect hnf1 hnf2
        (1 + j) (by omega) (by omega)
    have hfinal : (processSheet
        { sheet with values := (processSheet sheet env o1 ts1).grid } env o2 ts2).events =
        (processRows cd.columnIndices (sheet.validation 2 (cd.columnIndices.name + 1))
          env o2 ts2
          (unprocessedRows cd.columnIndices (processSheet sheet env o1 ts1).grid)
          (processSheet sheet env o1 ts1).grid).2 := by
      rw [processSheet_eq_some _ env o2 ts2 _ hsucc]
    rw [hfinal, hsel]
    rfl

/-- Claim C2, witness at the concrete one-row sheet. -/
theorem c2_witness :
    (processSheet { sheet0 with values := (processSheet sheet0 env0 allOk 0).grid }
      env0 allOk 1).events = [] :=
  c2 sheet0 env0 allOk allOk 0 1 (by decide) (fun _ => rfl) (fun _ => rfl)

/-- Claim C3: for every selected row, a rejected name gets the sentinel
written into its emailSent cell and no notification; an admitted name
gets exactly one notification whose send event precedes the timestamp
write, and the timestamp write happens only when the dispatch succeeded. -/
theorem c3 : ∀ (sheet : Sheet) (env : Env) (o : Oracle) (ts : Nat)
    (cd : ColumnData) (rd : RowData),
    readColumnData sheet = some cd →
    rd ∈ unprocessedRows cd.columnIndices cd.values →
    (isValidName cd.nameValidation rd.name env.ranges = false →
      sendsFor rd.rowNumber (processSheet sheet env o ts).events = 0 ∧
      (o.writeFails rd.rowNumber = false →
        eventsFor rd.rowNumber (processSheet sheet env o ts).events =
          [Event.write rd.rowNumber (cd.columnIndices.emailSent + 1)
            (Value.str "invalid name")])) ∧
    (isValidName cd.nameValidation rd.name env.ranges = true →
      (o.sendFails rd.rowNumber = false →
        eventsFor rd.rowNumber (processSheet sheet env o ts).events =
          Event.send rd.rowNumber (emailAddress rd) emailSubject (buildEmailBody env rd) ::
            (if o.writeFails rd.rowNumber then []
             else [Event.write rd.rowNumber (cd.columnIndices.emailSent + 1)
               (Value.vdate ts)])) ∧
      (o.sendFails rd.rowNumber = true →
        eventsFor rd.rowNumber (processSheet sheet env o ts).events = [])) := by
  intro sheet env o ts cd rd hcd hmem
  have hev : eventsFor rd.rowNumber (processSheet sheet env o ts).events =
      rowEvents cd.columnIndices cd.nameValidation env o ts rd := by
    rw [processSheet_eq_some sheet env o ts cd hcd]
    exact eventsFor_processRows_mem _ _ _ _ _ _ _ _
      (unprocessedRows_pairwise cd.columnIndices cd.values) hmem
  constructor
  · intro hv
    constructor
    · simp only [sendsFor, hev]
      cases hw : o.writeFails rd.rowNumber with
      | true => simp [rowEvents, processOneRow, hv, hw]
      | false => simp [rowEvents, processOneRow, hv, hw, isSendEvent]
    · intro hw
      rw [hev]
      simp [rowEvents, processOneRow, hv, hw]
  · intro hv
    constructor
    · intro hs
      rw [hev]
      cases hw : o.writeFails rd.rowNumber with
      | true => simp [rowEvents, processOneRow, hv, hs, hw]
      | false => simp [rowEvents, processOneRow, hv, hs, hw]
    · intro hs
      rw [hev]
      simp [rowEvents, processOneRow, hv, hs]

/-- Claim C3, witness: the valid row of sheet0 under the failure-free
oracle yields exactly one send followed by the timestamp write. -/
theorem c3_witness :
    eventsFor 2 (processSheet sheet0 env0 allOk 0).events =
      Event.send 2 (emailAddress rd0) emailSubject (buildEmailBody env0 rd0) ::
        (if allOk.writeFails 2 then []
         else [Event.write 2 (cd0.columnIndices.emailSent + 1) (Value.vdate 0)]) :=
  ((c3 sheet0 env0 allOk 0 cd0 rd0 (by decide) (by decide)).2 (by decide)).1 rfl

/-- Claim C4, counterexample: a list rule whose criteria payload is a
present but empty array makes the code reject every identity, while the
reference policy of the specification admits it. -/
theorem c4_counterexample :
    isValidName (some (DataValidation.valueInList (some []))) (Value.str "Alice")
      (fun _ => none) = false ∧
    nameAdmissibleSpec (some (DataValidation.valueInList (some []))) "Alice"
      (fun _ => none) = true := by
  decide

/-- Claim C4, amended: on string identities the implemented validator
equals the reference policy amended so that a present literal set is
always consulted, hence an empty present set admits nothing. -/
theorem c4_amended : ∀ (rule : Option DataValidation) (identity : String)
    (ranges : String → Option (List Value)),
    isValidName rule (Value.str identity) ranges =
      nameAdmissibleAmended rule identity ranges := by
  intro rule identity ranges
  by_cases hs : identity = ""
  · subst hs
    rfl
  · have h1 : (Value.str identity).truthy = true := by
      simp [Value.truthy, hs]
    simp only [isValidName, nameAdmissibleAmended, Value.toStr, h1, Bool.not_true,
      Bool.false_or]

/-- Claim C5, counterexample: a row whose emailSent cell holds the
number 0 is selected by the code although its string form "0" is not
blank, so the selector differs from the empty-or-whitespace-only
selector the specification describes. -/
theorem c5_counterexample :
    (unprocessedRows ci7 vals5).map (fun rd => rd.rowNumber) = [2] ∧
    (selectRowsSpec specBlankCell ci7 vals5).map (fun rd => rd.rowNumber) = [] ∧
    resolveColumns header7 = some ci7 ∧
    specBlankCell (Value.num 0) = false := by
  decide

/-- Claim C5, amended: the selector produces exactly the data rows
(header excluded, physical order) whose emailSent value is falsy or
whitespace-only. -/
theorem c5_amended : ∀ (ci : ColumnIndices) (values : List (List Value)),
    unprocessedRows ci values = selectRowsSpec blankOrFalsy ci values := by
  intro ci values
  have hpred : blankOrFalsy = isBlankCell := rfl
  rw [hpred]
  cases values with
  | nil => rfl
  | cons h t =>
    show selectRows ci 1 t = _
    rw [selectRows_eq_enumFrom]
    simp only [selectRowsSpec, List.enum]
    rw [List.enumFrom_cons]
    simp only [List.drop_succ_cons, List.drop_zero]

/-- Claim C6: header resolution succeeds exactly when every declared
label has an exactly equal header cell, and a missing declared label
makes the whole run end with no events and the grid unchanged. -/
theorem c6 :
    (∀ headerRow : List Value,
      (resolveColumns headerRow).isSome = true ↔
        ∀ p ∈ columns, Value.str p.2 ∈ headerRow) ∧
    (∀ (sheet : Sheet) (env : Env) (o : Oracle) (ts : Nat) (p : String × String),
      p ∈ columns → Value.str p.2 ∉ sheet.values.headD [] →
      processSheet sheet env o ts = ⟨sheet.values, []⟩) := by
  constructor
  · exact resolveColumns_isSome_iff
  · intro sheet env o ts p hp hmiss
    apply processSheet_eq_none
    simp only [readColumnData]
    by_cases hl : sheet.values.length < 2
    · rw [if_pos hl]
    · rw [if_neg hl]
      cases hr : resolveColumns (sheet.values.headD []) with
      | none => rfl
      | some ci =>
        exfalso
        have : (resolveColumns (sheet.values.headD [])).isSome = true := by
          rw [hr]; rfl
        exact hmiss ((resolveColumns_isSome_iff _).mp this p hp)

/-- Claim C6, witness: the full header resolves, and a sheet missing
most labels processes to no events. -/
theorem c6_witness :
    (resolveColumns header7).isSome = true ∧
    processSheet sheetMissing env0 allOk 0 = ⟨sheetMissing.values, []⟩ :=
  ⟨(c6.1 header7).mpr (by decide),
   c6.2 sheetMissing env0 allOk 0 ("notes", "Notes") (by decide) (by decide)⟩

/-- Claim C7: a failing row leaves its own grid row exactly as it was,
and the events of any row depend only on that row and the failure
behaviour at that row, so one row failing does not change how any other
row is processed. -/
theorem c7 : ∀ (sheet : Sheet) (env : Env) (o o2 : Oracle) (ts : Nat)
    (cd : ColumnData) (rd : RowData),
    readColumnData sheet = some cd →
    rd ∈ unprocessedRows cd.columnIndices cd.values →
    (rowFails cd.nameValidation env o rd = true →
      (processSheet sheet env o ts).grid.getD (rd.rowNumber - 1) [] =
        sheet.values.getD (rd.rowNumber - 1) []) ∧
    (∀ r2, o.sendFails r2 = o2.sendFails r2 → o.writeFails r2 = o2.writeFails r2 →
      eventsFor r2 (processSheet sheet env o ts).events =
        eventsFor r2 (processSheet sheet env o2 ts).events) := by
  intro sheet env o o2 ts cd rd hcd hmem
  have hv := (readColumnData_some sheet cd hcd).2.2
  constructor
  · intro hf
    rw [processSheet_eq_some sheet env o ts cd hcd]
    simp only
    rw [processRows_fst_row_of_fail _ _ _ _ _ _ _ rd
        (unprocessedRows_pairwise _ _)
        (fun y hy => by have := (unprocessedRows_bounds _ _ y hy).1; omega)
        hmem hf, hv]
  · intro r2 hs hw
    rw [processSheet_eq_some sheet env o ts cd hcd,
        processSheet_eq_some sheet env o2 ts cd hcd]
    exact eventsFor_processRows_congr _ _ _ _ _ _ _ _ _ _ hs hw

/-- Claim C7, witness: a throwing write on row 2 leaves that row intact,
and the events of row 3 agree between the failing and the failure-free
oracle. -/
theorem c7_witness :
    (processSheet sheet0 env0 failRow2 0).grid.getD 1 [] =
      sheet0.values.getD 1 [] ∧
    eventsFor 3 (processSheet sheet0 env0 failRow2 0).events =
      eventsFor 3 (processSheet sheet0 env0 allOk 0).events := by
  have h := c7 sheet0 env0 failRow2 allOk 0 cd0 rd0 (by decide) (by decide)
  exact ⟨h.1 (by decide), h.2 3 rfl rfl⟩

/-- Claim C8: the guard fires exactly when a last-modification time was
obtained and lies within the trailing ten-minute window; a firing guard
makes the guarded entry point produce no events; a failing time lookup
makes the guard report false and the guarded run proceed. -/
theorem c8 :
    (∀ (ss : Spreadsheet) (now : Int),
      wasSheetModifiedRecently ss now = true ↔
        ∃ t, ss.lastModifiedResult = some t ∧ now - t < recencyWindowMs) ∧
    (∀ (ss : Spreadsheet) (now : Int) (year : String) (env : Env) (o : Oracle)
      (ts : Nat), wasSheetModifiedRecently ss now = true →
      processLateSheetIfNotModifiedRecently (some ss) now year env o ts = []) ∧
    (∀ (ss : Spreadsheet) (now : Int) (year : String) (env : Env) (o : Oracle)
      (ts : Nat), ss.lastModifiedResult = none →
      wasSheetModifiedRecently ss now = false ∧
      processLateSheetIfNotModifiedRecently (some ss) now year env o ts =
        processLateSheet ss year env o ts) := by
  refine ⟨?_, ?_, ?_⟩
  · intro ss now
    cases hlm : ss.lastModifiedResult with
    | none => simp [wasSheetModifiedRecently, hlm]
    | some t =>
      simp only [wasSheetModifiedRecently, hlm, decide_eq_true_eq]
      constructor
      · intro hgt
        exact ⟨t, rfl, by omega⟩
      · rintro ⟨t2, ht2, hlt⟩
        have ht : t2 = t := by
          injection ht2 with h2
          exact h2.symm
        omega
  · intro ss now year env o ts hg
    simp [processLateSheetIfNotModifiedRecently, hg]
  · intro ss now year env o ts hnone
    have hg : wasSheetModifiedRecently ss now = false := by
      simp [wasSheetModifiedRecently, hnone]
    exact ⟨hg, by simp [processLateSheetIfNotModifiedRecently, hg]⟩

/-- Claim C8, witness: a recently modified spreadsheet makes the guarded
entry point produce nothing, and a failed time lookup reports not
recent and proceeds. -/
theorem c8_witness :
    processLateSheetIfNotModifiedRecently (some ssRecent) 600001 "2026" env0 allOk 0
      = [] ∧
    wasSheetModifiedRecently ssNoTime 600001 = false ∧
    processLateSheetIfNotModifiedRecently (some ssNoTime) 600001 "2026" env0 allOk 0
      = processLateSheet ssNoTime "2026" env0 allOk 0 :=
  ⟨c8.2.1 ssRecent 600001 "2026" env0 allOk 0 (by decide),
   (c8.2.2 ssNoTime 600001 "2026" env0 allOk 0 rfl).1,
   (c8.2.2 ssNoTime 600001 "2026" env0 allOk 0 rfl).2⟩

/-- Claim C9, counterexample: a whitespace-only violation value is
truthy, so its line is still included in the email body although the
value is blank in the sense of the specification. -/
theorem c9_counterexample :
    buildEmailBody env0 rd9 =
      "Hello Bob,\n\nYou\x27ve been added to the late sheet with the following details:\n\nViolation:  \n\nBest regards,\nLate Sheet System" ∧
    ("Violation: " ++ rd9.violation.toStr ++ "\n") ∈ emailOptionalLines env0 rd9 ∧
    jsTrim rd9.violation.toStr = "" := by
  decide

/-- Claim C9, amended: the body is the fixed greeting naming the
identity (or the Member fallback when the name is falsy), the join of
the optional lines, and the signature; and each optional line is
included exactly when its field value is truthy, so a whitespace-only
value is included while a falsy one is not. -/
theorem c9_amended : ∀ (env : Env) (data : RowData),
    buildEmailBody env data =
      "Hello " ++ emailName data ++ ",\n\n" ++
      "You\x27ve been added to the late sheet with the following details:\n\n" ++
      String.join (emailOptionalLines env data) ++
      "\nBest regards,\nLate Sheet System" ∧
    (data.name.truthy = true → emailName data = data.name.toStr) ∧
    (("Date: " ++ formatDate env data.date ++ "\n") ∈ emailOptionalLines env data ↔
      data.date.truthy = true) ∧
    (("Violation: " ++ data.violation.toStr ++ "\n") ∈ emailOptionalLines env data ↔
      data.violation.truthy = true) ∧
    (("How Late: " ++ data.howLate.toStr ++ "\n") ∈ emailOptionalLines env data ↔
      data.howLate.truthy = true) ∧
    (("Notes: " ++ data.notes.toStr ++ "\n") ∈ emailOptionalLines env data ↔
      data.notes.truthy = true) := by
  intro env data
  refine ⟨rfl, ?_, ?_, ?_, ?_, ?_⟩
  · intro h
    simp [emailName, h]
  all_goals
    cases hd : data.date.truthy <;> cases hv : data.violation.truthy <;>
    cases hh : data.howLate.truthy <;> cases hn : data.notes.truthy <;>
      simp [emailOptionalLines, hd, hv, hh, hn,
        lineD_ne_lineV, lineD_ne_lineH, lineD_ne_lineN, lineV_ne_lineH,
        lineV_ne_lineN, lineH_ne_lineN, lineV_ne_lineD, lineH_ne_lineD,
        lineN_ne_lineD, lineH_ne_lineV, lineN_ne_lineV, lineN_ne_lineH]

/-- Claim C9, witness for the amended theorem at the concrete row. -/
theorem c9_witness :
    ("Violation: " ++ rd9.violation.toStr ++ "\n") ∈ emailOptionalLines env0 rd9 :=
  (c9_amended env0 rd9).2.2.2.1.mpr (by decide)

/-- Claim C10: with the current year equal to 2025, both entry points
and the year-gated processor produce no events whatever the spreadsheet
holds. -/
theorem c10 : ∀ (oss : Option Spreadsheet) (now : Int) (year : String) (env : Env)
    (o : Oracle) (ts : Nat), year = "2025" →
    processLateSheetNow oss year env o ts = [] ∧
    processLateSheetIfNotModifiedRecently oss now year env o ts = [] ∧
    ∀ ss : Spreadsheet, processLateSheet ss year env o ts = [] := by
  intro oss now year env o ts hy
  subst hy
  refine ⟨?_, ?_, ?_⟩
  · cases oss with
    | none => rfl
    | some s => simp [processLateSheetNow, processLateSheet]
  · cases oss with
    | none => rfl
    | some s =>
      simp only [processLateSheetIfNotModifiedRecently]
      by_cases hg : wasSheetModifiedRecently s now = true
      · rw [if_pos hg]
      · rw [if_neg hg]
        simp [processLateSheet]
  · intro ss
    simp [processLateSheet]

/-- Claim C10, witness at a concrete spreadsheet. -/
theorem c10_witness :
    processLateSheetNow (some ssNoTime) "2025" env0 allOk 0 = [] ∧
    processLateSheetIfNotModifiedRecently (some ssNoTime) 0 "2025" env0 allOk 0 = [] ∧
    ∀ ss : Spreadsheet, processLateSheet ss "2025" env0 allOk 0 = [] :=
  c10 (some ssNoTime) 0 "2025" env0 allOk 0 rfl

end LateSheet
